import Mathlib

/-!
Verification development for the `exp` expression-language toolkit
(parser + safe tree-walking evaluator).

The definitions below are a shallow embedding of the TypeScript sources:

* `src/src/eval.ts` — runtime values, safe loose equality, member access,
  the budgeted tree-walking evaluator (`evalExpr`, `evaluateAst`);
* `src/src/runtime.ts` — descriptor-based environment validation;
* `src/src/parse.ts` — pipeline desugaring (`mkPipedCall`);
* `src/src/string_literal.ts` — string-literal escape grammar, built on the
  `@claudiu-ceia/combine` parser-combinator library (an external dependency;
  its primitive combinators are modelled here with their documented
  semantics: committed failures produced by `cut` abort alternation).

JavaScript numbers are modelled as an idealized IEEE-754 domain
(`JsNum` = NaN, signed infinities, or an exact rational); floating-point
rounding is not modelled, and no theorem below depends on the numeric value
of an arithmetic result.
-/

namespace Exp

/-- Span of a node: half-open byte range into the input.  The TS field `end`
is called `stop` here because `end` is a Lean keyword. -/
structure Span where
  start : Nat
  stop : Nat
deriving Repr, DecidableEq

/-- Idealized JavaScript number: NaN, a signed infinity, or an exact rational
(standing in for a finite double; rounding is not modelled). -/
inductive JsNum where
  | nan
  | inf (pos : Bool)
  | rat (q : ℚ)
deriving Repr, DecidableEq

/-- JS strict equality on numbers: `NaN === NaN` is false. -/
def jsNumEq : JsNum → JsNum → Bool
  | .nan, _ => false
  | _, .nan => false
  | .inf a, .inf b => a == b
  | .rat a, .rat b => a == b
  | _, _ => false

/-- Truthiness of a number: `0` and `NaN` are falsy. -/
def jsNumTruthy : JsNum → Bool
  | .nan => false
  | .inf _ => true
  | .rat q => q != 0

/-- JS addition with NaN/infinity propagation. -/
def jsNumAdd : JsNum → JsNum → JsNum
  | .nan, _ => .nan
  | _, .nan => .nan
  | .inf a, .inf b => if a == b then .inf a else .nan
  | .inf a, .rat _ => .inf a
  | .rat _, .inf b => .inf b
  | .rat a, .rat b => .rat (a + b)

/-- JS negation. -/
def jsNumNeg : JsNum → JsNum
  | .nan => .nan
  | .inf p => .inf (!p)
  | .rat q => .rat (-q)

/-- JS subtraction. -/
def jsNumSub (a b : JsNum) : JsNum := jsNumAdd a (jsNumNeg b)

/-- JS multiplication with NaN/infinity propagation (`inf * 0 = NaN`). -/
def jsNumMul : JsNum → JsNum → JsNum
  | .nan, _ => .nan
  | _, .nan => .nan
  | .inf a, .inf b => .inf (a == b)
  | .inf a, .rat q => if q == 0 then .nan else .inf (a == decide (0 < q))
  | .rat q, .inf b => if q == 0 then .nan else .inf (b == decide (0 < q))
  | .rat a, .rat b => .rat (a * b)

/-- JS division following IEEE-754 conventions (`x/0` is ±∞ for `x ≠ 0`,
`0/0` is NaN, `inf/inf` is NaN). -/
def jsNumDiv : JsNum → JsNum → JsNum
  | .nan, _ => .nan
  | _, .nan => .nan
  | .inf _, .inf _ => .nan
  | .inf a, .rat q => .inf (a == decide (0 ≤ q))
  | .rat _, .inf _ => .rat 0
  | .rat a, .rat b =>
    if b == 0 then (if a == 0 then .nan else .inf (decide (0 ≤ a)))
    else .rat (a / b)

/-- Truncation of a rational toward zero. -/
def ratTrunc (q : ℚ) : ℤ := if 0 ≤ q then ⌊q⌋ else ⌈q⌉

/-- JS remainder: `a - b * trunc(a / b)`; NaN when either side is NaN, the
dividend is infinite, or the divisor is zero. -/
def jsNumMod : JsNum → JsNum → JsNum
  | .nan, _ => .nan
  | _, .nan => .nan
  | .inf _, _ => .nan
  | .rat a, .inf _ => .rat a
  | .rat a, .rat b =>
    if b == 0 then .nan else .rat (a - b * (ratTrunc (a / b) : ℚ))

/-- JS `<`: false when either side is NaN. -/
def jsNumLt : JsNum → JsNum → Bool
  | .nan, _ => false
  | _, .nan => false
  | .inf a, .inf b => !a && b
  | .inf a, .rat _ => !a
  | .rat _, .inf b => b
  | .rat a, .rat b => a < b

/-- JS `<=`: false when either side is NaN. -/
def jsNumLe : JsNum → JsNum → Bool
  | .nan, _ => false
  | _, .nan => false
  | .inf a, .inf b => !(a && !b)
  | .inf a, .rat _ => !a
  | .rat _, .inf b => b
  | .rat a, .rat b => a ≤ b

/-- Runtime value model of `src/src/eval.ts` (type `RuntimeValue`): primitives,
arrays, plain objects and host functions.  Arrays, objects and functions carry
a numeric identity tag modelling JavaScript reference identity; host functions
are referenced by an index into a host function table supplied to the
evaluator (their behaviour lives outside the value, which keeps the type
strictly positive). -/
inductive RuntimeValue where
  | undef
  | null
  | boolean (b : Bool)
  | num (n : JsNum)
  | str (s : String)
  | arr (id : Nat) (elems : List RuntimeValue)
  | obj (id : Nat) (fields : List (String × RuntimeValue))
  | func (id : Nat)
deriving Repr

/-- JS `typeof v !== "object"` based primitive test from `eval.ts`
(`isPrimitive`).  Note that in the source `typeof f === "function"` for a
function, so functions satisfy this test as well; only arrays and plain
objects fail it. -/
def isPrimitive : RuntimeValue → Bool
  | .undef => true
  | .null => true
  | .boolean _ => true
  | .num _ => true
  | .str _ => true
  | .func _ => true
  | .arr _ _ => false
  | .obj _ _ => false

/-- Non-primitive in the sense of the specification: object, array or
function. -/
def isNonPrimSpec : RuntimeValue → Bool
  | .arr _ _ => true
  | .obj _ _ => true
  | .func _ => true
  | _ => false

/-- Primitive in the sense of the specification: undefined, null, boolean,
number or string. -/
def isPrimSpec (v : RuntimeValue) : Bool := !isNonPrimSpec v

/-- JS strict equality (`===`): value equality on primitives (with
`NaN !== NaN`), reference identity on arrays, objects and functions. -/
def jsStrictEq : RuntimeValue → RuntimeValue → Bool
  | .undef, .undef => true
  | .null, .null => true
  | .boolean a, .boolean b => a == b
  | .num a, .num b => jsNumEq a b
  | .str a, .str b => a == b
  | .arr i _, .arr j _ => i == j
  | .obj i _, .obj j _ => i == j
  | .func i, .func j => i == j
  | _, _ => true && false

/-- Reference identity between two runtime values as the specification uses
the phrase: both sides are the same non-primitive (same kind and identity
tag). -/
def sameRef : RuntimeValue → RuntimeValue → Bool
  | .arr i _, .arr j _ => i == j
  | .obj i _, .obj j _ => i == j
  | .func i, .func j => i == j
  | _, _ => false

/-- JS `v == null` (nullish test, used in `looseEqualSafe`). -/
def isNullish : RuntimeValue → Bool
  | .undef => true
  | .null => true
  | _ => false

/-- Idealized model of JS `Number(string)`: trims whitespace, empty string is
`0`, an optionally signed decimal numeral (with optional fractional part)
parses exactly, anything else is NaN.  (Hex/exponent forms of the host
`Number` are not modelled; no verified claim depends on the numeric value a
string converts to.) -/
def strToNum (s : String) : JsNum :=
  let t := s.trim
  if t.isEmpty then .rat 0
  else
    let (sign, digitsPart) :=
      match t.toList with
      | '-' :: rest => ((-1 : ℚ), rest)
      | '+' :: rest => ((1 : ℚ), rest)
      | l => ((1 : ℚ), l)
    let intPart := digitsPart.takeWhile (·.isDigit)
    let rest := digitsPart.drop intPart.length
    let fracPart :=
      match rest with
      | '.' :: fr => some fr
      | [] => some []
      | _ => none
    match fracPart with
    | none => .nan
    | some fr =>
      if !(fr.all (·.isDigit)) then .nan
      else if intPart.isEmpty && fr.isEmpty then .nan
      else
        let iv : ℚ := (intPart.foldl (fun acc c => acc * 10 + (c.toNat - 48)) (0 : ℕ) : ℕ)
        let fv : ℚ := (fr.foldl (fun acc c => acc * 10 + (c.toNat - 48)) (0 : ℕ) : ℕ)
        let scale : ℚ := ((10 : ℕ) ^ fr.length : ℕ)
        .rat (sign * (iv + fv / scale))

/-- Weight used to justify termination of `looseEqualSafe`: each recursive
call replaces a boolean side by a number. -/
def boolWeight : RuntimeValue → Nat
  | .boolean _ => 1
  | _ => 0

/-- Safe loose equality from `eval.ts` (`looseEqualSafe`): JS-style `==`,
except that when either side fails the `isPrimitive` test no
conversion-to-primitive is attempted — the comparison returns `false`
instead.  Boolean sides are coerced to numbers and the comparison recurses,
exactly as in the source (`toNumber` on a boolean always yields `1` or `0`
and cannot throw); string/number pairs compare via `Number(string)`.  The
source dispatches with an if-cascade on `typeof`; here the same cascade is
expressed as a match that enumerates the value kinds so that termination is
structural in the number of boolean sides. -/
def looseEqualSafe (a b : RuntimeValue) : Bool :=
  -- Fast path for identical values and identical references (`a === b`).
  if jsStrictEq a b then true
  -- If either side is a non-primitive (object/array), do not coerce.
  else if !isPrimitive a || !isPrimitive b then false
  -- Nullish equality: `null == undefined`.
  else if isNullish a && isNullish b then true
  else if isNullish a || isNullish b then false
  else
    match a with
    -- Booleans coerce to numbers (left side first, as in the source).
    | .boolean x => looseEqualSafe (.num (.rat (if x then 1 else 0))) b
    | .num n =>
      match b with
      | .boolean y => looseEqualSafe (.num n) (.num (.rat (if y then 1 else 0)))
      -- String/number cross-coercion.
      | .str s => jsNumEq n (strToNum s)
      | _ => jsStrictEq (.num n) b
    | .str s =>
      match b with
      | .boolean y => looseEqualSafe (.str s) (.num (.rat (if y then 1 else 0)))
      -- String/number cross-coercion.
      | .num n => jsNumEq (strToNum s) n
      | _ => jsStrictEq (.str s) b
    | .undef =>
      match b with
      | .boolean y => looseEqualSafe .undef (.num (.rat (if y then 1 else 0)))
      | _ => jsStrictEq .undef b
    | .null =>
      match b with
      | .boolean y => looseEqualSafe .null (.num (.rat (if y then 1 else 0)))
      | _ => jsStrictEq .null b
    | .func i =>
      match b with
      | .boolean y => looseEqualSafe (.func i) (.num (.rat (if y then 1 else 0)))
      | _ => jsStrictEq (.func i) b
    | .arr i xs =>
      match b with
      | .boolean y => looseEqualSafe (.arr i xs) (.num (.rat (if y then 1 else 0)))
      | _ => jsStrictEq (.arr i xs) b
    | .obj i fs =>
      match b with
      | .boolean y => looseEqualSafe (.obj i fs) (.num (.rat (if y then 1 else 0)))
      | _ => jsStrictEq (.obj i fs) b
termination_by (boolWeight a, boolWeight b)
decreasing_by
  all_goals simp [boolWeight, Prod.lex_def]

/-- ToNumber coercion from `eval.ts` (`toNumber`); throws (`Except.error`)
on non-primitives — note that functions reach the throw as well. -/
def toNumber : RuntimeValue → Except String JsNum
  | .num n => .ok n
  | .boolean b => .ok (.rat (if b then 1 else 0))
  | .null => .ok (.rat 0)
  | .undef => .ok .nan
  | .str s => .ok (strToNum s)
  | _ => .error "expected primitive"

/-- Canonical decimal rendering of a number (idealized: exact integers print
as integers, other rationals in fraction form; no verified claim depends on
this string). -/
def jsNumToString : JsNum → String
  | .nan => "NaN"
  | .inf p => if p then "Infinity" else "-Infinity"
  | .rat q => if q.den == 1 then toString q.num else toString q

/-- ToString coercion from `eval.ts` (`toString`); throws on
non-primitives. -/
def rvToString : RuntimeValue → Except String String
  | .str s => .ok s
  | .num n => .ok (jsNumToString n)
  | .boolean b => .ok (if b then "true" else "false")
  | .null => .ok "null"
  | .undef => .ok "undefined"
  | _ => .error "expected primitive"

/-- Truthiness (`!!v`). -/
def isTruthy : RuntimeValue → Bool
  | .undef => false
  | .null => false
  | .boolean b => b
  | .num n => jsNumTruthy n
  | .str s => !s.isEmpty
  | .arr _ _ => true
  | .obj _ _ => true
  | .func _ => true

/-- Forbidden member names (`FORBIDDEN_MEMBERS` in `eval.ts`). -/
def isForbiddenMember (prop : String) : Bool :=
  prop == "__proto__" || prop == "prototype" || prop == "constructor"

/-- Member access from `eval.ts` (`getMember`): forbidden names throw;
arrays expose only `length`; plain objects expose own members only; every
other value yields undefined. -/
def getMember (obj : RuntimeValue) (prop : String) : Except String RuntimeValue :=
  if isForbiddenMember prop then .error "forbidden member access"
  else
    match obj with
    | .arr _ xs =>
      if prop == "length" then .ok (.num (.rat (xs.length : ℕ))) else .ok .undef
    | .obj _ fields =>
      match fields.find? (fun kv => kv.1 == prop) with
      | some kv => .ok kv.2
      | none => .ok .undef
    | _ => (.ok .undef)

/-- Unary operators (`!`, `+`, `-`). -/
inductive UnaryOp where
  | bang
  | plus
  | minus
deriving Repr, DecidableEq

/-- Binary operators of `ast/mod.ts` as consumed by the evaluator. -/
inductive BinaryOp where
  | add
  | sub
  | mul
  | div
  | mod
  | eq
  | ne
  | lt
  | le
  | gt
  | ge
  | and
  | or
deriving Repr, DecidableEq

/-- Expression AST of `src/src/ast/mod.ts`: every node carries a span. -/
inductive Expr where
  | num (value : JsNum) (span : Span)
  | str (value : String) (span : Span)
  | boolean (value : Bool) (span : Span)
  | null (span : Span)
  | ident (name : String) (span : Span)
  | arr (elements : List Expr) (span : Span)
  | unary (op : UnaryOp) (expr : Expr) (span : Span)
  | binary (op : BinaryOp) (left right : Expr) (span : Span)
  | member (object : Expr) (property : String) (span : Span)
  | call (callee : Expr) (args : List Expr) (span : Span)
  | cond (test consequent alternate : Expr) (span : Span)
deriving Repr

/-- Span of a node. -/
def Expr.span : Expr → Span
  | .num _ sp => sp
  | .str _ sp => sp
  | .boolean _ sp => sp
  | .null sp => sp
  | .ident _ sp => sp
  | .arr _ sp => sp
  | .unary _ _ sp => sp
  | .binary _ _ _ sp => sp
  | .member _ _ sp => sp
  | .call _ _ sp => sp
  | .cond _ _ _ sp => sp

/-- Outcome of invoking a host function: a (validated) runtime value, an
inadmissible return value (`isRuntimeValue(out)` fails in the source), or a
thrown host exception carrying a message. -/
inductive FnOut where
  | ret (v : RuntimeValue)
  | retBad
  | throws (msg : String)

/-- Host function table: behaviour of the host function with identity `id`.
Host functions are pure value transformers — they have no access to the
evaluator context (mirroring the source, where `RuntimeFunction` receives
only runtime values). -/
def FTab : Type := Nat → List RuntimeValue → FnOut

/-- Error payload (`EvalError` in `eval.ts`). -/
structure EvalErrorData where
  message : String
  span : Option Span
  steps : Option Nat
deriving Repr, DecidableEq

/-- Result of evaluation (`EvalResult`). -/
inductive EvalResult where
  | success (value : RuntimeValue)
  | failure (error : EvalErrorData)
deriving Repr

/-- Evaluation context (`Ctx` in `eval.ts`), threaded as explicit state.
`nextId` models the host allocator: identities handed to arrays created by
array literals. -/
structure Ctx where
  env : List (String × RuntimeValue)
  steps : Nat
  maxSteps : Nat
  depth : Nat
  maxDepth : Nat
  maxArrayElements : Nat
  nextId : Nat
deriving Repr

/-- Kind test `typeof v === "string"`. -/
def isStrRV : RuntimeValue → Bool
  | .str _ => true
  | _ => false

/-- Numeric binary operator: ToNumber both sides (left first, surfacing a
thrown `expected primitive` as a failure at the binary node's span) and
combine. -/
def numBin (f : JsNum → JsNum → JsNum) (a b : RuntimeValue) (sp : Span)
    (c : Ctx) : EvalResult × Ctx :=
  match toNumber a with
  | .error m => (.failure ⟨m, some sp, some c.steps⟩, c)
  | .ok x =>
    match toNumber b with
    | .error m => (.failure ⟨m, some sp, some c.steps⟩, c)
    | .ok y => (.success (.num (f x y)), c)

/-- String concatenation branch of `+`: ToString both sides (left first,
surfacing a thrown `expected primitive` as a failure at the binary node's
span) and concatenate. -/
def strConcat (a b : RuntimeValue) (sp : Span) (c : Ctx) : EvalResult × Ctx :=
  match rvToString a with
  | .error m => (.failure ⟨m, some sp, some c.steps⟩, c)
  | .ok s1 =>
    match rvToString b with
    | .error m => (.failure ⟨m, some sp, some c.steps⟩, c)
    | .ok s2 => (.success (.str (s1 ++ s2)), c)

/-- Numeric comparison operator: ToNumber both sides and compare. -/
def numCmp (f : JsNum → JsNum → Bool) (a b : RuntimeValue) (sp : Span)
    (c : Ctx) : EvalResult × Ctx :=
  match toNumber a with
  | .error m => (.failure ⟨m, some sp, some c.steps⟩, c)
  | .ok x =>
    match toNumber b with
    | .error m => (.failure ⟨m, some sp, some c.steps⟩, c)
    | .ok y => (.success (.boolean (f x y)), c)

/-- Invocation of a resolved host function (`fn(...args)` plus the
`isRuntimeValue(out)` check on its return): produce the value, reject an
inadmissible return, or surface a thrown host exception as an evaluation
failure at the call node's span. -/
def invokeHost (ftab : FTab) (fid : Nat) (argv : List RuntimeValue) (sp : Span)
    (c : Ctx) : EvalResult :=
  match ftab fid argv with
  | .ret v => .success v
  | .retBad => .failure ⟨"function returned an unsupported value", some sp, some c.steps⟩
  | .throws m => .failure ⟨m, some sp, some c.steps⟩

mutual

/-- The tree-walking evaluator from `eval.ts` (`evalExpr`).  The mutable
context is threaded explicitly.  This wrapper is the entry protocol of every
node visit: `bump` (increment the step counter, abort past the budget), the
recursion-depth check, the depth increment, the per-node dispatch
(`evalNode`, the source's `switch`), and the `finally` block that restores
the depth counter — here the explicit decrement on the common exit path. -/
def evalExpr (ftab : FTab) (e : Expr) (ctx : Ctx) : EvalResult × Ctx :=
  -- `bump`: the step counter is incremented on entry to every node visit.
  let ctx1 : Ctx := { ctx with steps := ctx.steps + 1 }
  if ctx1.steps > ctx1.maxSteps then
    (.failure ⟨"evaluation budget exceeded", some e.span, some ctx1.steps⟩, ctx1)
  else if ctx1.depth > ctx1.maxDepth then
    (.failure ⟨"evaluation recursion limit exceeded", some e.span, some ctx1.steps⟩, ctx1)
  else
    let out := evalNode ftab e { ctx1 with depth := ctx1.depth + 1 }
    (out.1, { out.2 with depth := out.2.depth - 1 })
termination_by (sizeOf e, 1)

/-- Per-node dispatch of the evaluator (the `switch (expr.kind)` inside the
source's `try` block).  Host exceptions (from `toNumber`, `toString`,
`getMember` and host calls) become `failure` results carrying the throw
message, the current node's span and the current step count — exactly what
the source's `catch` produces. -/
def evalNode (ftab : FTab) (e : Expr) (ctx2 : Ctx) : EvalResult × Ctx :=
  match e with
      | .num v _ => (.success (.num v), ctx2)
      | .str v _ => (.success (.str v), ctx2)
      | .boolean v _ => (.success (.boolean v), ctx2)
      | .null _ => (.success .null, ctx2)
      | .ident name _ =>
        -- `Object.hasOwn(ctx.env, name) ? ctx.env[name] : undefined`
        (.success (match ctx2.env.find? (fun kv => kv.1 == name) with
          | some kv => kv.2
          | none => .undef), ctx2)
      | .arr es sp =>
        if es.length > ctx2.maxArrayElements then
          (.failure ⟨"array literal too large", some sp, some ctx2.steps⟩, ctx2)
        else
          match evalList ftab es ctx2 with
          | (.error err, c1) => (.failure err, c1)
          | (.ok vs, c1) =>
            (.success (.arr c1.nextId vs), { c1 with nextId := c1.nextId + 1 })
      | .unary op sub sp =>
        match evalExpr ftab sub ctx2 with
        | (.failure err, c1) => (.failure err, c1)
        | (.success v, c1) =>
          match op with
          | .bang => (.success (.boolean (!isTruthy v)), c1)
          | .plus =>
            match toNumber v with
            | .error m => (.failure ⟨m, some sp, some c1.steps⟩, c1)
            | .ok n => (.success (.num n), c1)
          | .minus =>
            match toNumber v with
            | .error m => (.failure ⟨m, some sp, some c1.steps⟩, c1)
            | .ok n => (.success (.num (jsNumNeg n)), c1)
      | .binary op l r sp =>
        match op with
        -- Short-circuiting operators must be lazy.
        | .and =>
          match evalExpr ftab l ctx2 with
          | (.failure err, c1) => (.failure err, c1)
          | (.success lv, c1) =>
            if !isTruthy lv then (.success lv, c1) else evalExpr ftab r c1
        | .or =>
          match evalExpr ftab l ctx2 with
          | (.failure err, c1) => (.failure err, c1)
          | (.success lv, c1) =>
            if isTruthy lv then (.success lv, c1) else evalExpr ftab r c1
        | _ =>
          match evalExpr ftab l ctx2 with
          | (.failure err, c1) => (.failure err, c1)
          | (.success a, c1) =>
            match evalExpr ftab r c1 with
            | (.failure err, c2) => (.failure err, c2)
            | (.success b, c2) =>
              match op with
              | .add =>
                if isStrRV a || isStrRV b then strConcat a b sp c2
                else numBin jsNumAdd a b sp c2
              | .sub => numBin jsNumSub a b sp c2
              | .mul => numBin jsNumMul a b sp c2
              | .div => numBin jsNumDiv a b sp c2
              | .mod => numBin jsNumMod a b sp c2
              | .lt => numCmp jsNumLt a b sp c2
              | .le => numCmp jsNumLe a b sp c2
              | .gt => numCmp (fun x y => jsNumLt y x) a b sp c2
              | .ge => numCmp (fun x y => jsNumLe y x) a b sp c2
              | .eq => (.success (.boolean (looseEqualSafe a b)), c2)
              | .ne => (.success (.boolean (!looseEqualSafe a b)), c2)
              -- Defensive default of the source switch (unreachable for
              -- well-typed operators).
              | _ => (.failure ⟨"unknown binary operator", some sp, some c2.steps⟩, c2)
      | .member objE prop sp =>
        match evalExpr ftab objE ctx2 with
        | (.failure err, c1) => (.failure err, c1)
        | (.success ov, c1) =>
          match getMember ov prop with
          | .error m => (.failure ⟨m, some sp, some c1.steps⟩, c1)
          | .ok v => (.success v, c1)
      | .call (.member objE prop _) args sp =>
        -- Member call: evaluate the receiver object and resolve the member
        -- by the same rules as member access.
        match evalExpr ftab objE ctx2 with
        | (.failure err, c1) => (.failure err, c1)
        | (.success ov, c1) =>
          match getMember ov prop with
          | .error m => (.failure ⟨m, some sp, some c1.steps⟩, c1)
          | .ok fnv => evalCall ftab fnv args sp c1
      | .call calleeE args sp => evalFreeCall ftab calleeE args sp ctx2
      | .cond t cs alt _ =>
        match evalExpr ftab t ctx2 with
        | (.failure err, c1) => (.failure err, c1)
        | (.success tv, c1) =>
          if isTruthy tv then evalExpr ftab cs c1 else evalExpr ftab alt c1
termination_by (sizeOf e, 0)

/-- Free call (callee is not a member expression): evaluate the callee
expression itself, then proceed to the call tail. -/
def evalFreeCall (ftab : FTab) (calleeE : Expr) (args : List Expr) (sp : Span)
    (ctx : Ctx) : EvalResult × Ctx :=
  match evalExpr ftab calleeE ctx with
  | (.failure err, c1) => (.failure err, c1)
  | (.success fnv, c1) => evalCall ftab fnv args sp c1
termination_by (sizeOf calleeE + sizeOf args, 1)
decreasing_by
  all_goals first
    | decreasing_tactic
    | (cases args <;> decreasing_tactic)
    | (cases calleeE <;> decreasing_tactic)

/-- Tail of the call case: `typeof fn !== "function"` is checked before the
arguments are evaluated; then the arguments are evaluated left to right and
the host function is invoked. -/
def evalCall (ftab : FTab) (fnv : RuntimeValue) (args : List Expr) (sp : Span)
    (ctx : Ctx) : EvalResult × Ctx :=
  match fnv with
  | .func fid =>
    match evalList ftab args ctx with
    | (.error err, c2) => (.failure err, c2)
    | (.ok argv, c2) => (invokeHost ftab fid argv sp c2, c2)
  | _ => (.failure ⟨"attempted to call a non-function", some sp, some ctx.steps⟩, ctx)
termination_by (sizeOf args, 2)

/-- Left-to-right evaluation of a list of expressions (the element loop of
the array case and the argument loop of the call case), stopping at the
first failure. -/
def evalList (ftab : FTab) (es : List Expr) (ctx : Ctx) :
    Except EvalErrorData (List RuntimeValue) × Ctx :=
  match es with
  | [] => (.ok [], ctx)
  | e :: rest =>
    match evalExpr ftab e ctx with
    | (.failure err, c1) => (.error err, c1)
    | (.success v, c1) =>
      match evalList ftab rest c1 with
      | (.error err, c2) => (.error err, c2)
      | (.ok vs, c2) => (.ok (v :: vs), c2)
termination_by (sizeOf es, 0)

end

/-- Context built by `evaluateAst` for an already-admissible environment,
with the documented default budgets. -/
def defaultCtx (env : List (String × RuntimeValue)) : Ctx :=
  { env := env, steps := 0, maxSteps := 10000, depth := 0, maxDepth := 256,
    maxArrayElements := 1000, nextId := 0 }

/-- The entry point `evaluateAst` with default options, specialized to an
environment that is already a valid runtime environment (for such
environments the source's `normalizeEnv` is the identity and evaluation
proceeds with the default budgets). -/
def evaluateAst (ftab : FTab) (e : Expr) (env : List (String × RuntimeValue)) :
    EvalResult :=
  (evalExpr ftab e (defaultCtx env)).1

/-- Pipeline desugaring step from `parse.ts` (`mkPipedCall` inside
`ExpressionLang.Pipeline`): if the right operand is a call, the left operand
is injected as the first argument; otherwise the right operand becomes the
callee of a fresh single-argument call. -/
def mkPipedCall (start : Nat) (rhs lhs : Expr) : Expr :=
  match rhs with
  | .call callee args rsp => .call callee (lhs :: args) ⟨start, rsp.stop⟩
  | _ => .call rhs [lhs] ⟨start, rhs.span.stop⟩

/-- The pipeline reduction from `parse.ts`: the parsed head followed by the
parsed `|>` right operands is folded left-to-right
(`rest.reduce((acc, [, rhs]) => mkPipedCall(acc.span.start, rhs, acc), first)`). -/
def pipelineDesugar (first : Expr) (rest : List Expr) : Expr :=
  rest.foldl (fun acc rhs => mkPipedCall acc.span.start rhs acc) first

/-- Kind test for call nodes. -/
def Expr.isCall : Expr → Bool
  | .call _ _ _ => true
  | _ => false

mutual

/-- Maximum nesting depth of the children lists of an expression list. -/
def heightList : List Expr → Nat
  | [] => 0
  | e :: rest => max (height e) (heightList rest)

/-- Syntactic nesting height of an expression: a leaf has height 0, an inner
node is one more than its tallest child (an empty array literal counts as
height 1).  A node at syntactic depth `k` below the root is visited by the
evaluator with a recursion counter of at most `k`. -/
def height : Expr → Nat
  | .num _ _ => 0
  | .str _ _ => 0
  | .boolean _ _ => 0
  | .null _ => 0
  | .ident _ _ => 0
  | .arr es _ => 1 + heightList es
  | .unary _ e _ => 1 + height e
  | .binary _ l r _ => 1 + max (height l) (height r)
  | .member o _ _ => 1 + height o
  | .call c args _ => 1 + max (height c) (heightList args)
  | .cond t cs alt _ => 1 + max (height t) (max (height cs) (height alt))

end

/-!
Host-value model for environment validation.

`validateRuntimeValue` / `normalizeEnv` in `src/src/runtime.ts` inspect
property descriptors: a property is either a direct data slot or a computed
accessor (getter/setter).  The model below represents arbitrary host values
as descriptor trees.  An accessor's behaviour (`Getter`) is observable only
by invoking it — the descriptor-based validator of `runtime.ts` never does,
which in this model is visible in the fact that `validateRuntimeValue`
never destructures a `Getter`.  The entry-based validator of the captured
`src/src/eval.ts` (`Object.entries` + `isRuntimeValue`), by contrast, reads
property values, which invokes getters; its model counts those reads.
-/

mutual

/-- A host JavaScript value as seen through property descriptors. -/
inductive HostVal where
  | undef
  | null
  | boolean (b : Bool)
  | num (n : JsNum)
  | str (s : String)
  | func (id : Nat)
  /-- An array; `protoIsArray` models the `Object.getPrototypeOf(value) ===
  Array.prototype` check, and each index `0 ≤ i < length` has a slot. -/
  | array (protoIsArray : Bool) (elems : List HostSlot)
  /-- A plain object (prototype `Object.prototype` or null) described by its
  own property descriptors. -/
  | plainObj (fields : List (String × HostProp))
  /-- Any other object shape (Date, Map, class instance, ...). -/
  | exotic

/-- Descriptor of an array index slot. -/
inductive HostSlot where
  | dataSlot (v : HostVal)
  | accessorSlot (g : Getter)
  | hole

/-- Own property descriptor of a plain object. -/
inductive HostProp where
  | dataProp (v : HostVal) (enumerable : Bool)
  | accessorProp (g : Getter) (enumerable : Bool)

/-- Behaviour of a getter if it were invoked: produce a value or throw.
Reading it is a host-observable side effect. -/
inductive Getter where
  | getterRet (v : HostVal)
  | getterThrow (msg : String)

end

mutual

/-- Environment-value validator from `src/src/runtime.ts`
(`validateRuntimeValue`): primitives and functions pass; arrays must be
genuine arrays whose index slots are data properties with admissible values
(holes read as `undefined`, which is admissible); plain objects must have
only data properties among their enumerable own properties (non-enumerable
properties are ignored by design); everything else is rejected.  Error
messages render the offending path like the source does (the source's
quoting of object keys is simplified here).  Accessors are rejected by
looking at the descriptor alone: no `Getter` is ever invoked. -/
def validateRuntimeValue (v : HostVal) (path : String) : Except String Unit :=
  match v with
  | .undef => .ok ()
  | .null => .ok ()
  | .boolean _ => .ok ()
  | .num _ => .ok ()
  | .str _ => .ok ()
  | .func _ => .ok ()
  | .array protoIsArray elems =>
    if !protoIsArray then .error (path ++ " must be an Array")
    -- A genuine JS array always carries a numeric data `length` property,
    -- so the source's length-descriptor check passes for every value this
    -- constructor can represent.
    else validateSlots elems path 0
  | .plainObj fields => validateProps fields path
  | .exotic => .error (path ++ " is not a supported runtime value")
termination_by sizeOf v

/-- Index loop of the array case of `validateRuntimeValue`. -/
def validateSlots (slots : List HostSlot) (path : String) (i : Nat) :
    Except String Unit :=
  match slots with
  | [] => .ok ()
  | slot :: rest =>
    match slot with
    | .accessorSlot _ =>
      .error (path ++ "[" ++ toString i ++ "] must be a data property")
    | .dataSlot v =>
      match validateRuntimeValue v (path ++ "[" ++ toString i ++ "]") with
      | .error m => .error m
      | .ok _ => validateSlots rest path (i + 1)
    | .hole =>
      -- A missing index descriptor reads as `undefined`, which validates.
      validateSlots rest path (i + 1)
termination_by sizeOf slots

/-- Descriptor loop of the plain-object case of `validateRuntimeValue`:
non-enumerable properties are skipped, enumerable accessors are rejected,
enumerable data values are validated recursively. -/
def validateProps (fields : List (String × HostProp)) (path : String) :
    Except String Unit :=
  match fields with
  | [] => .ok ()
  | (k, p) :: rest =>
    match p with
    | .dataProp v enumerable =>
      if !enumerable then validateProps rest path
      else
        match validateRuntimeValue v (path ++ "[" ++ k ++ "]") with
        | .error m => .error m
        | .ok _ => validateProps rest path
    | .accessorProp _ enumerable =>
      if !enumerable then validateProps rest path
      else .error (path ++ "[" ++ k ++ "] must be a data property")
termination_by sizeOf fields

end

/-- The environment validator from `src/src/runtime.ts` (`normalizeEnv`),
restricted to its accept/reject verdict: the environment must be a plain
object, and each enumerable own property must be a data property whose value
validates.  (The successful branch additionally deep-copies the environment
into proto-null objects; the copy is faithful to the validated descriptor
tree and is not modelled separately.) -/
def runtimeNormalizeEnvCheck (env : List (String × HostProp)) :
    Except String Unit :=
  match env with
  | [] => .ok ()
  | (k, p) :: rest =>
    match p with
    | .dataProp v enumerable =>
      if !enumerable then runtimeNormalizeEnvCheck rest
      else
        match validateRuntimeValue v ("env[" ++ k ++ "]") with
        | .error m => .error m
        | .ok _ => runtimeNormalizeEnvCheck rest
    | .accessorProp _ enumerable =>
      if !enumerable then runtimeNormalizeEnvCheck rest
      else .error ("env[" ++ k ++ "] must be a data property")

mutual

/-- Does a host value contain an accessor among the values the validator
traverses (every array index slot; enumerable own properties of plain
objects)? -/
def hasAccessor : HostVal → Bool
  | .array _ elems => slotsHaveAccessor elems
  | .plainObj fields => propsHaveAccessor fields
  | _ => false
termination_by v => sizeOf v

/-- Accessor search over array slots. -/
def slotsHaveAccessor : List HostSlot → Bool
  | [] => false
  | .accessorSlot _ :: _ => true
  | .dataSlot v :: rest => hasAccessor v || slotsHaveAccessor rest
  | .hole :: rest => slotsHaveAccessor rest
termination_by slots => sizeOf slots

/-- Accessor search over enumerable object properties. -/
def propsHaveAccessor : List (String × HostProp) → Bool
  | [] => false
  | (_, .accessorProp _ enumerable) :: rest =>
    enumerable || propsHaveAccessor rest
  | (_, .dataProp v enumerable) :: rest =>
    (enumerable && hasAccessor v) || propsHaveAccessor rest
termination_by fields => sizeOf fields

end

/-- Result of host code that may read getters: a value together with the
number of getter invocations performed, or a propagating host exception. -/
inductive ReadRes (α : Type) where
  | val (a : α) (reads : Nat)
  | exn (msg : String) (reads : Nat)
deriving Repr, DecidableEq

/-- Account for `n` earlier getter invocations. -/
def addReads (n : Nat) : ReadRes α → ReadRes α
  | .val a k => .val a (n + k)
  | .exn m k => .exn m (n + k)

mutual

/-- The `isRuntimeValue` check local to the captured `src/src/eval.ts`: it
inspects values, not descriptors.  `value.every(isRuntimeValue)` on an array
and `Object.values(value)` on a plain object read the property values, so
any getter on the way is invoked (counted here; a throwing getter escapes as
a host exception).  `Array.prototype.every` skips holes of sparse arrays.
(The source materializes `Object.values` before checking; the model
interleaves each read with its check, which is observationally identical up
to the order of getter invocations after a failed check — nothing verified
depends on that order.) -/
def isRuntimeValueEvalTs : HostVal → ReadRes Bool
  | .undef => .val true 0
  | .null => .val true 0
  | .boolean _ => .val true 0
  | .num _ => .val true 0
  | .str _ => .val true 0
  | .func _ => .val true 0
  | .array _ elems => slotsEvery elems
  | .plainObj fields => propsEvery fields
  | .exotic => .val false 0
termination_by v => sizeOf v

/-- The array loop `value.every(isRuntimeValue)` of the captured
`isRuntimeValue`, reading element slots. -/
def slotsEvery : List HostSlot → ReadRes Bool
  | [] => .val true 0
  | .hole :: rest => slotsEvery rest
  | .dataSlot v :: rest =>
    match isRuntimeValueEvalTs v with
    | .exn m n => .exn m n
    | .val false n => .val false n
    | .val true n => addReads n (slotsEvery rest)
  | .accessorSlot g :: rest =>
    match g with
    | .getterThrow m => .exn m 1
    | .getterRet v =>
      match isRuntimeValueEvalTs v with
      | .exn m n => .exn m (1 + n)
      | .val false n => .val false (1 + n)
      | .val true n => addReads (1 + n) (slotsEvery rest)
termination_by slots => sizeOf slots

/-- The object loop `Object.values(value).every(isRuntimeValue)` of the
captured `isRuntimeValue`, reading enumerable own property values. -/
def propsEvery : List (String × HostProp) → ReadRes Bool
  | [] => .val true 0
  | (_, .dataProp v enumerable) :: rest =>
    if !enumerable then propsEvery rest
    else
      match isRuntimeValueEvalTs v with
      | .exn m n => .exn m n
      | .val false n => .val false n
      | .val true n => addReads n (propsEvery rest)
  | (_, .accessorProp g enumerable) :: rest =>
    if !enumerable then propsEvery rest
    else
      match g with
      | .getterThrow m => .exn m 1
      | .getterRet v =>
        match isRuntimeValueEvalTs v with
        | .exn m n => .exn m (1 + n)
        | .val false n => .val false (1 + n)
        | .val true n => addReads (1 + n) (propsEvery rest)
termination_by fields => sizeOf fields

end

/-- The `Object.entries(env)` pass of the captured `eval.ts` `normalizeEnv`:
every enumerable own property value is read up front — a getter in the
environment is invoked right here, before any validation verdict. -/
def entriesReadEnv : List (String × HostProp) → ReadRes (List (String × HostVal))
  | [] => .val [] 0
  | (k, .dataProp v enumerable) :: rest =>
    if !enumerable then entriesReadEnv rest
    else
      match entriesReadEnv rest with
      | .exn m n => .exn m n
      | .val pairs n => .val ((k, v) :: pairs) n
  | (k, .accessorProp g enumerable) :: rest =>
    if !enumerable then entriesReadEnv rest
    else
      match g with
      | .getterThrow m => .exn m 1
      | .getterRet v =>
        match entriesReadEnv rest with
        | .exn m n => .exn m (1 + n)
        | .val pairs n => .val ((k, v) :: pairs) (1 + n)

/-- Per-entry `isRuntimeValue` loop of the captured `normalizeEnv`; yields
the first offending key, if any. -/
def checkEnvPairs : List (String × HostVal) → ReadRes (Option String)
  | [] => .val none 0
  | (k, v) :: rest =>
    match isRuntimeValueEvalTs v with
    | .exn m n => .exn m n
    | .val false n => .val (some k) n
    | .val true n => addReads n (checkEnvPairs rest)

/-- Verdict of the captured `eval.ts` `normalizeEnv`: accepted, rejected
with a message, or aborted by a host exception thrown by an invoked
getter. -/
inductive EnvCheckOutcome where
  | accepted
  | rejected (msg : String)
  | hostException (msg : String)
deriving Repr, DecidableEq

/-- The environment validation that the captured `src/src/eval.ts`
`evaluateAst` actually performs (its local `normalizeEnv`): read all
enumerable own values via `Object.entries` — invoking any getters — and
then test each value with the value-based `isRuntimeValue`.  The second
component counts getter invocations observed by the host. -/
def evalTsNormalizeEnv (env : List (String × HostProp)) :
    EnvCheckOutcome × Nat :=
  match entriesReadEnv env with
  | .exn m n => (.hostException m, n)
  | .val pairs n =>
    match checkEnvPairs pairs with
    | .exn m k => (.hostException m, n + k)
    | .val (some badKey) k =>
      (.rejected ("env[" ++ badKey ++ "] is not a supported runtime value"), n + k)
    | .val none k => (.accepted, n + k)

/-!
Parser-combinator model for the string-literal grammar of
`src/src/string_literal.ts`.

The grammar is written against the external `@claudiu-ceia/combine` library.
The primitive combinators below model its documented behaviour over an input
cursor: a parser either succeeds with a value and the advanced cursor, or
fails with an expected-message, the failure position, and a committed flag.
`cut` produces committed failures; alternation (`any`) and repetition
(`many`) stop at committed failures instead of trying further alternatives
(the source annotates such positions with committed-failure comments).
-/

/-- Input cursor: remaining characters and the absolute index consumed so
far. -/
structure PState where
  rest : List Char
  idx : Nat
deriving Repr, DecidableEq

/-- Reply of a parser: success with the advanced cursor, or failure with the
expected description, the failure position and whether the failure is
committed (produced under a `cut`). -/
inductive PReply (α : Type) where
  | ok (value : α) (s : PState)
  | err (expected : String) (s : PState) (fatal : Bool)
deriving Repr, DecidableEq

/-- A parser over the cursor. -/
def ParserC (α : Type) : Type := PState → PReply α

/-- Always succeed (`success`). -/
def pSuccess (v : α) : ParserC α := fun s => .ok v s

/-- Always fail (`failure` / the `fail` helper of `string_literal.ts`). -/
def pFail (expected : String) : ParserC α := fun s => .err expected s false

/-- Match a literal character sequence (`str`). -/
def strP (lit : List Char) : ParserC String := fun s =>
  if lit.isPrefixOf s.rest then
    .ok (String.mk lit) ⟨s.rest.drop lit.length, s.idx + lit.length⟩
  else .err (String.mk lit) s false

/-- Match a single character satisfying a predicate (single-character
`regex`). -/
def charP (pred : Char → Bool) (expected : String) : ParserC Char := fun s =>
  match s.rest with
  | c :: cs => if pred c then .ok c ⟨cs, s.idx + 1⟩ else .err expected s false
  | [] => .err expected s false

/-- Decimal digit returning its numeric value (`digit`). -/
def digitP : ParserC Nat := fun s =>
  match s.rest with
  | c :: cs =>
    if c.isDigit then .ok (c.toNat - 48) ⟨cs, s.idx + 1⟩
    else .err "digit" s false
  | [] => .err "digit" s false

/-- Hexadecimal digit character (`hexDigit`). -/
def hexDigitP : ParserC Char :=
  charP (fun c => c.isDigit || ('a' ≤ c && c ≤ 'f') || ('A' ≤ c && c ≤ 'F'))
    "hex digit"

/-- Map over a parser result (`map`). -/
def mapP (p : ParserC α) (f : α → β) : ParserC β := fun s =>
  match p s with
  | .ok v s1 => .ok (f v) s1
  | .err e st fl => .err e st fl

/-- Ordered choice (binary step of `any`): try the left parser from the
current position; on a committed failure stop, on an ordinary failure
backtrack and try the right parser. -/
def orP (p q : ParserC α) : ParserC α := fun s =>
  match p s with
  | .ok v s1 => .ok v s1
  | .err e st true => .err e st true
  | .err _ _ false => q s

/-- Sequencing (`seq` on two parsers), propagating failures with their
committed flag. -/
def seqP (p : ParserC α) (q : ParserC β) : ParserC (α × β) := fun s =>
  match p s with
  | .err e st fl => .err e st fl
  | .ok a s1 =>
    match q s1 with
    | .err e st fl => .err e st fl
    | .ok b s2 => .ok (a, b) s2

/-- Negative lookahead (`not`): succeed without consuming exactly when the
inner parser fails. -/
def notP (p : ParserC α) : ParserC Unit := fun s =>
  match p s with
  | .ok _ _ => .err "not" s false
  | .err _ _ _ => .ok () s

/-- Commit with a replacement message (`cut(p, expected)`): any failure of
`p` becomes a committed failure reported as `expected`. -/
def cutP (p : ParserC α) (expected : String) : ParserC α := fun s =>
  match p s with
  | .ok v s1 => .ok v s1
  | .err _ st _ => .err expected st true

/-- Commit keeping the inner message (`cut(p)` with no replacement). -/
def cutKeep (p : ParserC α) : ParserC α := fun s =>
  match p s with
  | .ok v s1 => .ok v s1
  | .err e st _ => .err e st true

/-- Optional occurrence (`optional`); a committed failure still
propagates. -/
def optionalP (p : ParserC α) : ParserC (Option α) := fun s =>
  match p s with
  | .ok v s1 => .ok (some v) s1
  | .err e st true => .err e st true
  | .err _ _ false => .ok none s

/-- Exactly `n` occurrences (`repeat`). -/
def repeatP (n : Nat) (p : ParserC α) : ParserC (List α) :=
  match n with
  | 0 => pSuccess []
  | n + 1 => mapP (seqP p (repeatP n p)) (fun pr => pr.1 :: pr.2)

/-- Fuelled body of `many`. -/
def manyAux (p : ParserC α) : Nat → PState → PReply (List α)
  | 0, s => .ok [] s
  | fuel + 1, s =>
    match p s with
    | .err _ _ false => .ok [] s
    | .err e st true => .err e st true
    | .ok v s1 =>
      -- Progress guard: a zero-consumption success ends the loop (the
      -- grammar below always consumes, so this guard never fires for it).
      if s1.idx == s.idx then .ok [v] s1
      else
        match manyAux p fuel s1 with
        | .err e st fl => .err e st fl
        | .ok vs s2 => .ok (v :: vs) s2

/-- Zero or more occurrences (`many`): stop at the first ordinary failure,
propagate committed failures.  The remaining input length bounds the number
of iterations. -/
def manyP (p : ParserC α) : ParserC (List α) := fun s =>
  manyAux p (s.rest.length + 1) s

/-- Numeric value of a hex-digit string (`parseInt(digits, 16)` on the
output of the hex recognizers). -/
def hexValue (ds : String) : Nat :=
  ds.toList.foldl
    (fun acc c =>
      acc * 16 +
        (if c.isDigit then c.toNat - 48
         else if 'a' ≤ c && c ≤ 'f' then c.toNat - 87
         else c.toNat - 55))
    0

/-- Model of `String.fromCharCode` / `String.fromCodePoint` on one unit:
`Char.ofNat` (lone surrogates, which Lean characters cannot represent,
collapse to NUL; no verified claim involves them). -/
def fromCode (n : Nat) : String := String.mk [Char.ofNat n]

/-- Digit producing its decimal character (`decimalDigitChar`). -/
def decimalDigitChar : ParserC String := mapP digitP (fun d => toString d)

/-- Digit escape probe (`strictInvalidDigitEscape`): parse a digit; `0`
turns into an ordinary failure at the original position, a nonzero digit is
passed along. -/
def strictInvalidDigitEscape : ParserC Nat := fun s =>
  match digitP s with
  | .err e st fl => .err e st fl
  | .ok d s1 => if d == 0 then .err "strict mode digit escape" s false else .ok d s1

/-- Two hex digits (`hex2`). -/
def hex2 : ParserC String := mapP (repeatP 2 hexDigitP) (fun xs => String.mk xs)

/-- Four hex digits (`hex4`). -/
def hex4 : ParserC String := mapP (repeatP 4 hexDigitP) (fun xs => String.mk xs)

/-- One to six hex digits, longest first (`hex1to6`). -/
def hex1to6 : ParserC String :=
  orP (mapP (repeatP 6 hexDigitP) (fun xs => String.mk xs))
    (orP (mapP (repeatP 5 hexDigitP) (fun xs => String.mk xs))
      (orP (mapP (repeatP 4 hexDigitP) (fun xs => String.mk xs))
        (orP (mapP (repeatP 3 hexDigitP) (fun xs => String.mk xs))
          (orP (mapP (repeatP 2 hexDigitP) (fun xs => String.mk xs))
            (mapP (repeatP 1 hexDigitP) (fun xs => String.mk xs))))))

/-- Line continuation tail (`lineContinuationTail`): CR (optionally followed
by LF), LF, U+2028 or U+2029, contributing no character. -/
def lineContinuationTail : ParserC String :=
  orP (mapP (seqP (strP ['\r']) (optionalP (strP ['\n']))) (fun _ => ""))
    (orP (mapP (strP ['\n']) (fun _ => ""))
      (orP (mapP (strP ['\u2028']) (fun _ => ""))
        (mapP (strP ['\u2029']) (fun _ => ""))))

/-- Single-character escapes (`singleEscapeChar`). -/
def singleEscapeChar : ParserC String :=
  orP (mapP (strP ['n']) (fun _ => "\n"))
    (orP (mapP (strP ['r']) (fun _ => "\r"))
      (orP (mapP (strP ['t']) (fun _ => "\t"))
        (orP (mapP (strP ['b']) (fun _ => "\x08"))
          (orP (mapP (strP ['f']) (fun _ => "\x0c"))
            (orP (mapP (strP ['v']) (fun _ => "\x0b"))
              (orP (mapP (strP ['\\']) (fun _ => "\\"))
                (orP (mapP (strP ['"']) (fun _ => "\""))
                  (mapP (strP ['\'']) (fun _ => "\'")))))))))

/-- The `\0` escape (`zeroEscape`): in strict mode legacy octal escapes are
forbidden, so `\0` must not be followed by a decimal digit; when it is, the
`cut` turns the lookahead failure into a committed parse error. -/
def zeroEscape : ParserC String :=
  mapP
    (seqP (strP ['0'])
      (cutP (notP decimalDigitChar) "strict mode: legacy octal escape"))
    (fun _ => "\x00")

/-- The `\xHH` escape (`hexEscape`): committed to two hex digits once `x` is
seen. -/
def hexEscape : ParserC String :=
  mapP (seqP (strP ['x']) (cutP hex2 "2 hex digits"))
    (fun pr => fromCode (hexValue pr.2))

/-- Body of `\uHHHH` (`unicodeEscape4Body`). -/
def unicodeEscape4Body : ParserC String :=
  mapP (cutP hex4 "4 hex digits") (fun ds => fromCode (hexValue ds))

/-- Body of the braced code-point escape (`unicodeCodePointEscapeBody`):
open brace, one to six committed hex digits, committed closing brace, and a
range check against `0x10FFFF`. -/
def unicodeCodePointEscapeBody : ParserC String := fun s =>
  match strP [Char.ofNat 123] s with
  | .err e st fl => .err e st fl
  | .ok _ s1 =>
    match cutP hex1to6 "1-6 hex digits" s1 with
    | .err e st fl => .err e st fl
    | .ok digits s2 =>
      match cutP (strP [Char.ofNat 125]) "closing brace" s2 with
      | .err e st fl => .err e st fl
      | .ok _ s3 =>
        let cp := hexValue digits
        if cp > 0x10FFFF then .err "unicode code point" s3 false
        else .ok (fromCode cp) s3

/-- The `\u` escapes (`unicodeEscape`): committed to one of the two bodies
once `u` is seen. -/
def unicodeEscape : ParserC String := fun s =>
  match strP ['u'] s with
  | .err e st fl => .err e st fl
  | .ok _ s1 =>
    cutP (orP unicodeCodePointEscapeBody unicodeEscape4Body) "unicode escape" s1

/-- Identity escape (`identityEscapeChar`): any character other than a line
terminator stands for itself. -/
def identityEscapeChar : ParserC String :=
  mapP
    (charP (fun c => !(c == '\n' || c == '\r' || c == '\u2028' || c == '\u2029'))
      "escape character")
    (fun c => String.mk [c])

/-- Committed rejection of digit escapes (`strictDigitEscapeError`): a
nonzero digit after the backslash is a committed parse error in strict
mode. -/
def strictDigitEscapeError : ParserC String := fun s =>
  match strictInvalidDigitEscape s with
  | .err e st fl => .err e st fl
  | .ok _ s1 => cutKeep (pFail "strict mode: digit escapes are not allowed") s1

/-- Alternatives after the backslash (`escapeSequence`), in source order. -/
def escapeSequence : ParserC String :=
  orP lineContinuationTail
    (orP singleEscapeChar
      (orP zeroEscape
        (orP hexEscape
          (orP unicodeEscape
            (orP strictDigitEscapeError identityEscapeChar)))))

/-- A full escape (`escape`): backslash followed by an escape sequence. -/
def escapeP : ParserC String :=
  mapP (seqP (strP ['\\']) escapeSequence) (fun pr => pr.2)

/-- Ordinary string character for a given quote (`normalChar`). -/
def normalCharP (quote : Char) : ParserC String :=
  mapP
    (charP
      (fun c =>
        !(c == quote || c == '\\' || c == '\n' || c == '\r' ||
          c == '\u2028' || c == '\u2029'))
      "string character")
    (fun c => String.mk [c])

/-- A quoted string literal body (`makeStringLiteral`): quote, many escapes
or ordinary characters, closing quote; produces the decoded text. -/
def makeStringLiteral (quote : Char) : ParserC String :=
  mapP
    (seqP (strP [quote])
      (seqP
        (mapP (manyP (orP escapeP (normalCharP quote)))
          (fun parts => String.join parts))
        (strP [quote])))
    (fun pr => pr.2.1)

/-- Either quoting form (the `literal` in `createStringSpan`). -/
def stringLiteralP : ParserC String :=
  orP (makeStringLiteral '"') (makeStringLiteral '\'')

/-- Message of the step-budget error (`BudgetExceeded`). -/
def budgetMsg : String := "evaluation budget exceeded"

/-- Message of the recursion-limit error (`RecursionLimit`). -/
def depthMsg : String := "evaluation recursion limit exceeded"

/-- A host function table that never forges the budget error message by
throwing exactly that string (host throws are wrapped unchanged, so a host
could otherwise make its exception indistinguishable from the evaluator's
own budget error). -/
def honestBudget (ftab : FTab) : Prop :=
  ∀ fid argv, ftab fid argv ≠ .throws budgetMsg

/-- A host function table that never forges the recursion-limit error
message. -/
def honestDepth (ftab : FTab) : Prop :=
  ∀ fid argv, ftab fid argv ≠ .throws depthMsg

/-- The parts of the evaluation context that a node visit leaves unchanged:
the environment, all three limits, and — thanks to the `finally` block —
the recursion-depth counter. -/
def sameBudgets (c c' : Ctx) : Prop :=
  c'.env = c.env ∧ c'.maxSteps = c.maxSteps ∧ c'.maxDepth = c.maxDepth ∧
  c'.maxArrayElements = c.maxArrayElements ∧ c'.depth = c.depth

/-! Invariant lemmas about the evaluator context. -/

theorem sameBudgets_refl (c : Ctx) : sameBudgets c c := ⟨rfl, rfl, rfl, rfl, rfl⟩

theorem sameBudgets_trans {a b c : Ctx} (h1 : sameBudgets a b)
    (h2 : sameBudgets b c) : sameBudgets a c := by
  obtain ⟨e1, s1, d1, m1, p1⟩ := h1
  obtain ⟨e2, s2, d2, m2, p2⟩ := h2
  exact ⟨e2.trans e1, s2.trans s1, d2.trans d1, m2.trans m1, p2.trans p1⟩

theorem numBin_snd (f : JsNum → JsNum → JsNum) (a b : RuntimeValue) (sp : Span)
    (c : Ctx) : (numBin f a b sp c).2 = c := by
  unfold numBin
  cases toNumber a with
  | error m => rfl
  | ok x =>
    cases toNumber b with
    | error m => rfl
    | ok y => rfl

theorem numCmp_snd (f : JsNum → JsNum → Bool) (a b : RuntimeValue) (sp : Span)
    (c : Ctx) : (numCmp f a b sp c).2 = c := by
  unfold numCmp
  cases toNumber a with
  | error m => rfl
  | ok x =>
    cases toNumber b with
    | error m => rfl
    | ok y => rfl

theorem strConcat_snd (a b : RuntimeValue) (sp : Span) (c : Ctx) :
    (strConcat a b sp c).2 = c := by
  unfold strConcat
  cases rvToString a with
  | error m => rfl
  | ok x =>
    cases rvToString b with
    | error m => rfl
    | ok y => rfl

mutual

/-- Every node visit preserves the environment, all limits and — via the
`finally` restore — the depth counter, and never decreases the step
counter (the dispatch itself adds no step; the entry bump in `evalExpr`
does). -/
theorem evalNode_inv (ftab : FTab) (e : Expr) (ctx : Ctx) :
    sameBudgets ctx (evalNode ftab e ctx).2 ∧
      ctx.steps ≤ (evalNode ftab e ctx).2.steps := by
  cases e with
  | num v sp =>
    rw [evalNode.eq_def]; exact ⟨sameBudgets_refl ctx, le_refl _⟩
  | str v sp =>
    rw [evalNode.eq_def]; exact ⟨sameBudgets_refl ctx, le_refl _⟩
  | boolean v sp =>
    rw [evalNode.eq_def]; exact ⟨sameBudgets_refl ctx, le_refl _⟩
  | null sp =>
    rw [evalNode.eq_def]; exact ⟨sameBudgets_refl ctx, le_refl _⟩
  | ident name sp =>
    rw [evalNode.eq_def]; exact ⟨sameBudgets_refl ctx, le_refl _⟩
  | arr es sp =>
    rw [evalNode.eq_def]
    dsimp only
    split
    · exact ⟨sameBudgets_refl ctx, le_refl _⟩
    · have ih := evalList_inv ftab es ctx
      rcases h : evalList ftab es ctx with ⟨r, c1⟩
      rw [h] at ih; dsimp only at ih
      cases r with
      | error err => dsimp only; exact ih
      | ok vs =>
        dsimp only
        obtain ⟨⟨h1, h2, h3, h4, h5⟩, h6⟩ := ih
        exact ⟨⟨h1, h2, h3, h4, h5⟩, h6⟩
  | unary op sub sp =>
    rw [evalNode.eq_def]
    dsimp only
    have ih := evalExpr_inv ftab sub ctx
    rcases h : evalExpr ftab sub ctx with ⟨r, c1⟩
    rw [h] at ih; dsimp only at ih
    cases r with
    | failure err => dsimp only; exact ⟨ih.1, le_of_lt ih.2⟩
    | success v =>
      cases op with
      | bang => dsimp only; exact ⟨ih.1, le_of_lt ih.2⟩
      | plus =>
        dsimp only
        cases toNumber v with
        | error m => dsimp only; exact ⟨ih.1, le_of_lt ih.2⟩
        | ok n => dsimp only; exact ⟨ih.1, le_of_lt ih.2⟩
      | minus =>
        dsimp only
        cases toNumber v with
        | error m => dsimp only; exact ⟨ih.1, le_of_lt ih.2⟩
        | ok n => dsimp only; exact ⟨ih.1, le_of_lt ih.2⟩
  | binary op l r sp =>
    rw [evalNode.eq_def]
    dsimp only
    have ihl := evalExpr_inv ftab l ctx
    rcases hL : evalExpr ftab l ctx with ⟨rl, c1⟩
    rw [hL] at ihl; dsimp only at ihl
    have hand : sameBudgets ctx (evalExpr ftab r c1).2 ∧
        ctx.steps ≤ (evalExpr ftab r c1).2.steps := by
      have ihr := evalExpr_inv ftab r c1
      exact ⟨sameBudgets_trans ihl.1 ihr.1, by omega⟩
    cases op
    case and =>
      dsimp only
      cases rl with
      | failure err => dsimp only; exact ⟨ihl.1, le_of_lt ihl.2⟩
      | success lv =>
        dsimp only
        split
        · exact ⟨ihl.1, le_of_lt ihl.2⟩
        · exact hand
    case or =>
      dsimp only
      cases rl with
      | failure err => dsimp only; exact ⟨ihl.1, le_of_lt ihl.2⟩
      | success lv =>
        dsimp only
        split
        · exact ⟨ihl.1, le_of_lt ihl.2⟩
        · exact hand
    all_goals (
      dsimp only
      cases rl with
      | failure err => dsimp only; exact ⟨ihl.1, le_of_lt ihl.2⟩
      | success a =>
        dsimp only
        have ihr := evalExpr_inv ftab r c1
        rcases hR : evalExpr ftab r c1 with ⟨rr, c2⟩
        rw [hR] at ihr; dsimp only at ihr
        have both : sameBudgets ctx c2 ∧ ctx.steps ≤ c2.steps :=
          ⟨sameBudgets_trans ihl.1 ihr.1, by omega⟩
        cases rr with
        | failure err => dsimp only; exact both
        | success b =>
          dsimp only
          first
            | (rw [numBin_snd]; exact both)
            | (rw [numCmp_snd]; exact both)
            | (split
               · rw [strConcat_snd]; exact both
               · rw [numBin_snd]; exact both)
            | exact both)
  | member objE prop sp =>
    rw [evalNode.eq_def]
    dsimp only
    have ih := evalExpr_inv ftab objE ctx
    rcases h : evalExpr ftab objE ctx with ⟨r, c1⟩
    rw [h] at ih; dsimp only at ih
    cases r with
    | failure err => dsimp only; exact ⟨ih.1, le_of_lt ih.2⟩
    | success ov =>
      dsimp only
      cases getMember ov prop with
      | error m => dsimp only; exact ⟨ih.1, le_of_lt ih.2⟩
      | ok v => dsimp only; exact ⟨ih.1, le_of_lt ih.2⟩
  | call calleeE args sp =>
    cases calleeE
    case member objE prop spm =>
      rw [evalNode.eq_def]
      dsimp only
      have ih := evalExpr_inv ftab objE ctx
      rcases h : evalExpr ftab objE ctx with ⟨r, c1⟩
      rw [h] at ih; dsimp only at ih
      cases r with
      | failure err => dsimp only; exact ⟨ih.1, le_of_lt ih.2⟩
      | success ov =>
        dsimp only
        cases getMember ov prop with
        | error m => dsimp only; exact ⟨ih.1, le_of_lt ih.2⟩
        | ok fnv =>
          dsimp only
          have ihc := evalCall_inv ftab fnv args sp c1
          exact ⟨sameBudgets_trans ih.1 ihc.1, by omega⟩
    all_goals (
      rw [evalNode.eq_def]
      dsimp only
      exact evalFreeCall_inv ftab _ args sp ctx)
  | cond t cs alt sp =>
    rw [evalNode.eq_def]
    dsimp only
    have ih := evalExpr_inv ftab t ctx
    rcases h : evalExpr ftab t ctx with ⟨r, c1⟩
    rw [h] at ih; dsimp only at ih
    cases r with
    | failure err => dsimp only; exact ⟨ih.1, le_of_lt ih.2⟩
    | success tv =>
      dsimp only
      split
      · have ih2 := evalExpr_inv ftab cs c1
        exact ⟨sameBudgets_trans ih.1 ih2.1, by omega⟩
      · have ih2 := evalExpr_inv ftab alt c1
        exact ⟨sameBudgets_trans ih.1 ih2.1, by omega⟩
termination_by (sizeOf e, 0)

/-- Context invariants of the free-call path. -/
theorem evalFreeCall_inv (ftab : FTab) (calleeE : Expr) (args : List Expr)
    (sp : Span) (ctx : Ctx) :
    sameBudgets ctx (evalFreeCall ftab calleeE args sp ctx).2 ∧
      ctx.steps ≤ (evalFreeCall ftab calleeE args sp ctx).2.steps := by
  rw [evalFreeCall.eq_def]
  have ih := evalExpr_inv ftab calleeE ctx
  rcases h : evalExpr ftab calleeE ctx with ⟨r, c1⟩
  rw [h] at ih; dsimp only at ih
  cases r with
  | failure err => dsimp only; exact ⟨ih.1, le_of_lt ih.2⟩
  | success fnv =>
    dsimp only
    have ihc := evalCall_inv ftab fnv args sp c1
    exact ⟨sameBudgets_trans ih.1 ihc.1, by omega⟩
termination_by (sizeOf calleeE + sizeOf args, 1)
decreasing_by
  all_goals first
    | decreasing_tactic
    | (cases args <;> decreasing_tactic)
    | (cases calleeE <;> decreasing_tactic)

/-- Context invariants of the call tail. -/
theorem evalCall_inv (ftab : FTab) (fnv : RuntimeValue) (args : List Expr)
    (sp : Span) (ctx : Ctx) :
    sameBudgets ctx (evalCall ftab fnv args sp ctx).2 ∧
      ctx.steps ≤ (evalCall ftab fnv args sp ctx).2.steps := by
  rw [evalCall.eq_def]
  split
  · have ih := evalList_inv ftab args ctx
    rcases h : evalList ftab args ctx with ⟨r, c2⟩
    rw [h] at ih; dsimp only at ih
    cases r with
    | error err => dsimp only; exact ih
    | ok argv => dsimp only; exact ih
  · exact ⟨sameBudgets_refl ctx, le_refl _⟩
termination_by (sizeOf args, 2)

/-- Context invariants of the entry protocol: every visit increments the
step counter at least once and restores the depth counter. -/
theorem evalExpr_inv (ftab : FTab) (e : Expr) (ctx : Ctx) :
    sameBudgets ctx (evalExpr ftab e ctx).2 ∧
      ctx.steps < (evalExpr ftab e ctx).2.steps := by
  rw [evalExpr.eq_def]
  dsimp only
  split
  · exact ⟨⟨rfl, rfl, rfl, rfl, rfl⟩, Nat.lt_succ_self _⟩
  · split
    · exact ⟨⟨rfl, rfl, rfl, rfl, rfl⟩, Nat.lt_succ_self _⟩
    · have ih := evalNode_inv ftab e
        { ctx with steps := ctx.steps + 1, depth := ctx.depth + 1 }
      rcases h : evalNode ftab e
          { ctx with steps := ctx.steps + 1, depth := ctx.depth + 1 } with ⟨r, c⟩
      rw [h] at ih; dsimp only at ih
      obtain ⟨⟨h1, h2, h3, h4, h5⟩, h6⟩ := ih
      simp only at h1 h2 h3 h4 h5 h6
      exact ⟨⟨h1, h2, h3, h4, by simp [h5]⟩, by simp; omega⟩
termination_by (sizeOf e, 1)

/-- Context invariants of the element/argument loop. -/
theorem evalList_inv (ftab : FTab) (es : List Expr) (ctx : Ctx) :
    sameBudgets ctx (evalList ftab es ctx).2 ∧
      ctx.steps ≤ (evalList ftab es ctx).2.steps := by
  rw [evalList.eq_def]
  split
  · exact ⟨sameBudgets_refl ctx, le_refl _⟩
  · next e rest =>
    have ih := evalExpr_inv ftab e ctx
    rcases h : evalExpr ftab e ctx with ⟨r, c1⟩
    rw [h] at ih; dsimp only at ih
    cases r with
    | failure err => dsimp only; exact ⟨ih.1, le_of_lt ih.2⟩
    | success v =>
      dsimp only
      have ih2 := evalList_inv ftab rest c1
      rcases h2 : evalList ftab rest c1 with ⟨r2, c2⟩
      rw [h2] at ih2; dsimp only at ih2
      have both : sameBudgets ctx c2 ∧ ctx.steps ≤ c2.steps :=
        ⟨sameBudgets_trans ih.1 ih2.1, by omega⟩
      cases r2 with
      | error err => dsimp only; exact both
      | ok vs => dsimp only; exact both
termination_by (sizeOf es, 0)

end

/-! Step-budget lemmas: a successful evaluation never ends past the budget,
and the budget error always carries a count strictly past the budget. -/

mutual

/-- If the dispatch of a node succeeds and the entry count was within the
budget, the final count is still within the budget. -/
theorem evalNode_success (ftab : FTab) (e : Expr) (ctx : Ctx)
    (hctx : ctx.steps ≤ ctx.maxSteps) :
    ∀ v, (evalNode ftab e ctx).1 = .success v →
      (evalNode ftab e ctx).2.steps ≤ ctx.maxSteps := by
  cases e with
  | num v sp => intro v h; rw [evalNode.eq_def]; exact hctx
  | str v sp => intro v h; rw [evalNode.eq_def]; exact hctx
  | boolean v sp => intro v h; rw [evalNode.eq_def]; exact hctx
  | null sp => intro v h; rw [evalNode.eq_def]; exact hctx
  | ident name sp => intro v h; rw [evalNode.eq_def]; exact hctx
  | arr es sp =>
    intro v h
    rw [evalNode.eq_def] at h ⊢
    dsimp only at h ⊢
    by_cases hlen : es.length > ctx.maxArrayElements
    · simp [hlen] at h
    · simp only [hlen, if_false] at h ⊢
      have hs := evalList_success ftab es ctx
      rcases hl : evalList ftab es ctx with ⟨r, c1⟩
      rw [hl] at h hs; dsimp only at h hs
      cases r with
      | error err => simp at h
      | ok vs =>
        dsimp only
        rcases hs vs rfl with hle | heqc
        · exact hle
        · rw [heqc]; exact hctx
  | unary op sub sp =>
    intro v h
    rw [evalNode.eq_def] at h ⊢
    dsimp only at h ⊢
    have hb := evalExpr_success ftab sub ctx
    rcases hl : evalExpr ftab sub ctx with ⟨r, c1⟩
    rw [hl] at h hb; dsimp only at h hb
    cases r with
    | failure err => simp at h
    | success w =>
      have hle : c1.steps ≤ ctx.maxSteps := hb w rfl
      cases op with
      | bang => dsimp only; exact hle
      | plus =>
        dsimp only
        cases toNumber w with
        | error m => exact hle
        | ok n => exact hle
      | minus =>
        dsimp only
        cases toNumber w with
        | error m => exact hle
        | ok n => exact hle
  | binary op l r sp =>
    intro v h
    rw [evalNode.eq_def] at h ⊢
    dsimp only at h ⊢
    have hbl := evalExpr_success ftab l ctx
    rcases hL : evalExpr ftab l ctx with ⟨rl, c1⟩
    rw [hL] at h hbl; dsimp only at h hbl
    have hmax1 : c1.maxSteps = ctx.maxSteps := by
      have hx := (evalExpr_inv ftab l ctx).1.2.1
      rw [hL] at hx; exact hx
    cases op
    case and =>
      dsimp only at h ⊢
      cases rl with
      | failure err => simp at h
      | success lv =>
        have hle : c1.steps ≤ ctx.maxSteps := hbl lv rfl
        dsimp only at h ⊢
        cases htr : isTruthy lv with
        | false => simp only [htr, Bool.not_false, if_true] at h ⊢; exact hle
        | true =>
          simp only [htr, Bool.not_true, Bool.false_eq_true, if_false] at h ⊢
          have hbr := evalExpr_success ftab r c1
          rcases hR : evalExpr ftab r c1 with ⟨rr, c2⟩
          rw [hR] at h hbr; dsimp only at h hbr
          cases rr with
          | failure err => simp at h
          | success rv =>
            have := hbr rv rfl
            dsimp only
            omega
    case or =>
      dsimp only at h ⊢
      cases rl with
      | failure err => simp at h
      | success lv =>
        have hle : c1.steps ≤ ctx.maxSteps := hbl lv rfl
        dsimp only at h ⊢
        cases htr : isTruthy lv with
        | true => simp only [htr, if_true] at h ⊢; exact hle
        | false =>
          simp only [htr, Bool.false_eq_true, if_false] at h ⊢
          have hbr := evalExpr_success ftab r c1
          rcases hR : evalExpr ftab r c1 with ⟨rr, c2⟩
          rw [hR] at h hbr; dsimp only at h hbr
          cases rr with
          | failure err => simp at h
          | success rv =>
            have := hbr rv rfl
            dsimp only
            omega
    all_goals (
      dsimp only at h ⊢
      cases rl with
      | failure err => simp at h
      | success a =>
        dsimp only at h ⊢
        have hbr := evalExpr_success ftab r c1
        rcases hR : evalExpr ftab r c1 with ⟨rr, c2⟩
        rw [hR] at h hbr; dsimp only at h hbr
        cases rr with
        | failure err => simp at h
        | success b =>
          have hle : c2.steps ≤ ctx.maxSteps := by
            have := hbr b rfl
            omega
          dsimp only at h ⊢
          first
            | (rw [numBin_snd]; exact hle)
            | (rw [numCmp_snd]; exact hle)
            | (split
               · rw [strConcat_snd]; exact hle
               · rw [numBin_snd]; exact hle)
            | exact hle)
  | member objE prop sp =>
    intro v h
    rw [evalNode.eq_def] at h ⊢
    dsimp only at h ⊢
    have hb := evalExpr_success ftab objE ctx
    rcases hl : evalExpr ftab objE ctx with ⟨r, c1⟩
    rw [hl] at h hb; dsimp only at h hb
    cases r with
    | failure err => simp at h
    | success ov =>
      have hle : c1.steps ≤ ctx.maxSteps := hb ov rfl
      dsimp only
      cases getMember ov prop with
      | error m => exact hle
      | ok w => exact hle
  | call calleeE args sp =>
    cases calleeE
    case member objE prop spm =>
      intro v h
      rw [evalNode.eq_def] at h ⊢
      dsimp only at h ⊢
      have hb := evalExpr_success ftab objE ctx
      have hmax1 : (evalExpr ftab objE ctx).2.maxSteps = ctx.maxSteps :=
        (evalExpr_inv ftab objE ctx).1.2.1
      rcases hl : evalExpr ftab objE ctx with ⟨r, c1⟩
      rw [hl] at h hb hmax1; dsimp only at h hb hmax1
      cases r with
      | failure err => simp at h
      | success ov =>
        have hle : c1.steps ≤ ctx.maxSteps := hb ov rfl
        dsimp only at h ⊢
        rcases hg : getMember ov prop with m | fnv
        · rw [hg] at h; dsimp only; exact hle
        · rw [hg] at h; dsimp only at h ⊢
          have hcs := evalCall_success ftab fnv args sp c1 (by omega)
          rcases hc : evalCall ftab fnv args sp c1 with ⟨rc, c2⟩
          rw [hc] at h hcs; dsimp only at h hcs
          cases rc with
          | failure err => simp at h
          | success w =>
            have := hcs w rfl
            dsimp only
            omega
    all_goals (
      intro v h
      rw [evalNode.eq_def] at h ⊢
      dsimp only at h ⊢
      exact evalFreeCall_success ftab _ args sp ctx hctx v h)
  | cond t cs alt sp =>
    intro v h
    rw [evalNode.eq_def] at h ⊢
    dsimp only at h ⊢
    have hb := evalExpr_success ftab t ctx
    have hmax1 : (evalExpr ftab t ctx).2.maxSteps = ctx.maxSteps :=
      (evalExpr_inv ftab t ctx).1.2.1
    rcases hl : evalExpr ftab t ctx with ⟨r, c1⟩
    rw [hl] at h hb hmax1; dsimp only at h hb hmax1
    cases r with
    | failure err => simp at h
    | success tv =>
      dsimp only at h ⊢
      cases htr : isTruthy tv with
      | true =>
        simp only [htr, if_true] at h ⊢
        have := evalExpr_success ftab cs c1 v h
        omega
      | false =>
        simp only [htr, Bool.false_eq_true, if_false] at h ⊢
        have := evalExpr_success ftab alt c1 v h
        omega
termination_by (sizeOf e, 0)

/-- Success bound for the free-call path. -/
theorem evalFreeCall_success (ftab : FTab) (calleeE : Expr) (args : List Expr)
    (sp : Span) (ctx : Ctx) (hctx : ctx.steps ≤ ctx.maxSteps) :
    ∀ v, (evalFreeCall ftab calleeE args sp ctx).1 = .success v →
      (evalFreeCall ftab calleeE args sp ctx).2.steps ≤ ctx.maxSteps := by
  intro v h
  rw [evalFreeCall.eq_def] at h ⊢
  have hb := evalExpr_success ftab calleeE ctx
  have hmax1 : (evalExpr ftab calleeE ctx).2.maxSteps = ctx.maxSteps :=
    (evalExpr_inv ftab calleeE ctx).1.2.1
  rcases hl : evalExpr ftab calleeE ctx with ⟨r, c1⟩
  rw [hl] at h hb hmax1; dsimp only at h hb hmax1
  cases r with
  | failure err => simp at h
  | success fnv =>
    dsimp only at h ⊢
    have := evalCall_success ftab fnv args sp c1 (by have := hb fnv rfl; omega)
    rcases hc : evalCall ftab fnv args sp c1 with ⟨rc, c2⟩
    rw [hc] at h this; dsimp only at h this
    cases rc with
    | failure err => simp at h
    | success w =>
      have := this w rfl
      dsimp only
      omega
termination_by (sizeOf calleeE + sizeOf args, 1)
decreasing_by
  all_goals first
    | decreasing_tactic
    | (cases args <;> decreasing_tactic)
    | (cases calleeE <;> decreasing_tactic)

/-- Success bound for the call tail. -/
theorem evalCall_success (ftab : FTab) (fnv : RuntimeValue) (args : List Expr)
    (sp : Span) (ctx : Ctx) (hctx : ctx.steps ≤ ctx.maxSteps) :
    ∀ v, (evalCall ftab fnv args sp ctx).1 = .success v →
      (evalCall ftab fnv args sp ctx).2.steps ≤ ctx.maxSteps := by
  intro v h
  rw [evalCall.eq_def] at h ⊢
  cases fnv with
  | func fid =>
    dsimp only at h ⊢
    have hs := evalList_success ftab args ctx
    rcases hl : evalList ftab args ctx with ⟨r, c2⟩
    rw [hl] at h hs; dsimp only at h hs
    cases r with
    | error err => simp at h
    | ok argv =>
      dsimp only at h ⊢
      rcases hs argv rfl with hle | heqc
      · exact hle
      · rw [heqc]; exact hctx
  | undef => simp at h
  | null => simp at h
  | boolean b => simp at h
  | num n => simp at h
  | str s => simp at h
  | arr id xs => simp at h
  | obj id fs => simp at h
termination_by (sizeOf args, 2)

/-- Success bound for the entry protocol: when a visit succeeds, the final
step count is within the budget (the bump that entered it was checked). -/
theorem evalExpr_success (ftab : FTab) (e : Expr) (ctx : Ctx) :
    ∀ v, (evalExpr ftab e ctx).1 = .success v →
      (evalExpr ftab e ctx).2.steps ≤ ctx.maxSteps := by
  intro v h
  rw [evalExpr.eq_def] at h ⊢
  dsimp only at h ⊢
  split at h
  · simp at h
  · split at h
    · simp at h
    · next hb hd =>
      have hle : ctx.steps + 1 ≤ ctx.maxSteps := by
        simp at hb; omega
      have hs := evalNode_success ftab e
        { ctx with steps := ctx.steps + 1, depth := ctx.depth + 1 }
        (by simpa using hle)
      rcases hn : evalNode ftab e
          { ctx with steps := ctx.steps + 1, depth := ctx.depth + 1 } with ⟨r, c⟩
      rw [hn] at h hs; dsimp only at h hs
      cases r with
      | failure err => simp at h
      | success w =>
        have hfin := hs w rfl
        rw [if_neg hb, if_neg hd]
        dsimp only
        simpa using hfin
termination_by (sizeOf e, 1)

/-- Success bound for the element/argument loop: an `ok` result either did
no work (empty list) or ends within the budget. -/
theorem evalList_success (ftab : FTab) (es : List Expr) (ctx : Ctx) :
    ∀ vs, (evalList ftab es ctx).1 = .ok vs →
      (evalList ftab es ctx).2.steps ≤ ctx.maxSteps ∨
        (evalList ftab es ctx).2 = ctx := by
  intro vs h
  rw [evalList.eq_def] at h ⊢
  cases es with
  | nil => right; rfl
  | cons e rest =>
    dsimp only at h ⊢
    have hb := evalExpr_success ftab e ctx
    have hmax1 : (evalExpr ftab e ctx).2.maxSteps = ctx.maxSteps :=
      (evalExpr_inv ftab e ctx).1.2.1
    rcases hl : evalExpr ftab e ctx with ⟨r, c1⟩
    rw [hl] at h hb hmax1; dsimp only at h hb hmax1
    cases r with
    | failure err => simp at h
    | success v =>
      dsimp only at h ⊢
      have hle : c1.steps ≤ ctx.maxSteps := hb v rfl
      have hs := evalList_success ftab rest c1
      have hmax2 : (evalList ftab rest c1).2.maxSteps = c1.maxSteps :=
        (evalList_inv ftab rest c1).1.2.1
      rcases h2 : evalList ftab rest c1 with ⟨r2, c2⟩
      rw [h2] at h hs hmax2; dsimp only at h hs hmax2
      cases r2 with
      | error err => simp at h
      | ok vs2 =>
        dsimp only at h ⊢
        left
        rcases hs vs2 rfl with hle2 | heqc
        · omega
        · rw [heqc]; exact hle
termination_by (sizeOf es, 0)

end

/-! Classification of the errors each primitive operation can produce. -/

theorem toNumber_error (v : RuntimeValue) (m : String)
    (h : toNumber v = .error m) : m = "expected primitive" := by
  cases v <;> simp_all [toNumber]

theorem rvToString_error (v : RuntimeValue) (m : String)
    (h : rvToString v = .error m) : m = "expected primitive" := by
  cases v <;> simp_all [rvToString]

theorem getMember_error (obj : RuntimeValue) (prop : String) (m : String)
    (h : getMember obj prop = .error m) : m = "forbidden member access" := by
  unfold getMember at h
  split at h
  · cases h; rfl
  · cases obj with
    | arr id xs =>
      by_cases hp : prop == "length" <;> simp [hp] at h
    | obj id fs =>
      rcases hf : fs.find? (fun kv => kv.1 == prop) with _ | kv <;>
        simp [hf] at h
    | undef => simp at h
    | null => simp at h
    | boolean b => simp at h
    | num n => simp at h
    | str s => simp at h
    | func i => simp at h

theorem numBin_failure (f : JsNum → JsNum → JsNum) (a b : RuntimeValue)
    (sp : Span) (c : Ctx) (err : EvalErrorData)
    (h : (numBin f a b sp c).1 = .failure err) :
    err.message = "expected primitive" := by
  unfold numBin at h
  cases hA : toNumber a with
  | error m =>
    rw [hA] at h; dsimp only at h; cases h
    exact toNumber_error a m hA
  | ok x =>
    rw [hA] at h; dsimp only at h
    cases hB : toNumber b with
    | error m =>
      rw [hB] at h; dsimp only at h; cases h
      exact toNumber_error b m hB
    | ok y => rw [hB] at h; simp at h

theorem numCmp_failure (f : JsNum → JsNum → Bool) (a b : RuntimeValue)
    (sp : Span) (c : Ctx) (err : EvalErrorData)
    (h : (numCmp f a b sp c).1 = .failure err) :
    err.message = "expected primitive" := by
  unfold numCmp at h
  cases hA : toNumber a with
  | error m =>
    rw [hA] at h; dsimp only at h; cases h
    exact toNumber_error a m hA
  | ok x =>
    rw [hA] at h; dsimp only at h
    cases hB : toNumber b with
    | error m =>
      rw [hB] at h; dsimp only at h; cases h
      exact toNumber_error b m hB
    | ok y => rw [hB] at h; simp at h

theorem strConcat_failure (a b : RuntimeValue) (sp : Span) (c : Ctx)
    (err : EvalErrorData) (h : (strConcat a b sp c).1 = .failure err) :
    err.message = "expected primitive" := by
  unfold strConcat at h
  cases hA : rvToString a with
  | error m =>
    rw [hA] at h; dsimp only at h; cases h
    exact rvToString_error a m hA
  | ok x =>
    rw [hA] at h; dsimp only at h
    cases hB : rvToString b with
    | error m =>
      rw [hB] at h; dsimp only at h; cases h
      exact rvToString_error b m hB
    | ok y => rw [hB] at h; simp at h

/-! Provenance of the budget and recursion-limit errors: a failure carrying
the budget message always carries a step count strictly past the budget
(provided the host does not forge that message), and a failure carrying the
recursion-limit message can only arise from a visit at a depth past the
limit — never from a tree that fits within the limit. -/

/-- Splitting a depth bound over the two children of a binary-shaped
node. -/
theorem depth_max_le {d x y m : Nat} (h : d + (1 + max x y) ≤ m + 1) :
    d + x ≤ m ∧ d + y ≤ m := by
  have hx := le_max_left x y
  have hy := le_max_right x y
  omega

mutual

/-- Error provenance for the per-node dispatch. -/
theorem evalNode_err (ftab : FTab) (e : Expr) (ctx : Ctx) :
    ∀ err, (evalNode ftab e ctx).1 = .failure err →
      (honestBudget ftab → err.message = budgetMsg →
        ∃ s, err.steps = some s ∧ ctx.maxSteps < s) ∧
      (honestDepth ftab → ctx.depth + height e ≤ ctx.maxDepth + 1 →
        err.message ≠ depthMsg) := by
  cases e with
  | num v sp => intro err h; rw [evalNode.eq_def] at h; simp at h
  | str v sp => intro err h; rw [evalNode.eq_def] at h; simp at h
  | boolean v sp => intro err h; rw [evalNode.eq_def] at h; simp at h
  | null sp => intro err h; rw [evalNode.eq_def] at h; simp at h
  | ident name sp => intro err h; rw [evalNode.eq_def] at h; simp at h
  | arr es sp =>
    intro err h
    rw [evalNode.eq_def] at h
    dsimp only at h
    simp only [height] at *
    by_cases hlen : es.length > ctx.maxArrayElements
    · simp [hlen] at h
      subst h
      constructor
      · intro hB hm; simp [budgetMsg] at hm
      · intro hD hdep hm; simp [depthMsg] at hm
    · simp only [hlen, if_false] at h
      have ihe := evalList_err ftab es ctx
      rcases hl : evalList ftab es ctx with ⟨r, c1⟩
      rw [hl] at h ihe; dsimp only at h ihe
      cases r with
      | error err2 =>
        dsimp only at h
        cases h
        have := ihe err rfl
        exact ⟨this.1, fun hD hdep => this.2 hD (by omega)⟩
      | ok vs => simp at h
  | unary op sub sp =>
    intro err h
    rw [evalNode.eq_def] at h
    dsimp only at h
    simp only [height] at *
    have ihe := evalExpr_err ftab sub ctx
    rcases hl : evalExpr ftab sub ctx with ⟨r, c1⟩
    rw [hl] at h ihe; dsimp only at h ihe
    cases r with
    | failure err2 =>
      dsimp only at h
      cases h
      have := ihe err rfl
      exact ⟨this.1, fun hD hdep => this.2 hD (by omega)⟩
    | success w =>
      dsimp only at h
      cases op with
      | bang => simp at h
      | plus =>
        cases hN : toNumber w with
        | error m =>
          rw [hN] at h; dsimp only at h; cases h
          have hm := toNumber_error w m hN
          constructor
          · intro hB hmsg; simp [hm, budgetMsg] at hmsg
          · intro hD hdep hmsg; simp [hm, depthMsg] at hmsg
        | ok n => rw [hN] at h; simp at h
      | minus =>
        cases hN : toNumber w with
        | error m =>
          rw [hN] at h; dsimp only at h; cases h
          have hm := toNumber_error w m hN
          constructor
          · intro hB hmsg; simp [hm, budgetMsg] at hmsg
          · intro hD hdep hmsg; simp [hm, depthMsg] at hmsg
        | ok n => rw [hN] at h; simp at h
  | binary op l r sp =>
    intro err h
    rw [evalNode.eq_def] at h
    dsimp only at h
    simp only [height] at *
    have hml : height l ≤ max (height l) (height r) := le_max_left _ _
    have hmr : height r ≤ max (height l) (height r) := le_max_right _ _
    have ihl := evalExpr_err ftab l ctx
    rcases hL : evalExpr ftab l ctx with ⟨rl, c1⟩
    rw [hL] at h ihl; dsimp only at h ihl
    have hc1 : sameBudgets ctx c1 := by
      have := (evalExpr_inv ftab l ctx).1
      rw [hL] at this; exact this
    have ihr := evalExpr_err ftab r c1
    have hRconv : ∀ err2, (evalExpr ftab r c1).1 = .failure err2 →
        (honestBudget ftab → err2.message = budgetMsg →
          ∃ s, err2.steps = some s ∧ ctx.maxSteps < s) ∧
        (honestDepth ftab →
          ctx.depth + (1 + max (height l) (height r)) ≤ ctx.maxDepth + 1 →
          err2.message ≠ depthMsg) := by
      intro err2 h2
      have hx := evalExpr_err ftab r c1 err2 h2
      obtain ⟨_, hms, hmd, _, hdp⟩ := hc1
      exact ⟨fun hB hm => by rw [← hms]; exact hx.1 hB hm,
        fun hD hdep => hx.2 hD (by omega)⟩
    cases op
    case and =>
      dsimp only at h
      cases rl with
      | failure err2 =>
        cases h
        have := ihl err rfl
        exact ⟨this.1, fun hD hdep => this.2 hD (by omega)⟩
      | success lv =>
        dsimp only at h
        cases htr : isTruthy lv with
        | false => simp [htr] at h
        | true =>
          simp only [htr, Bool.not_true, Bool.false_eq_true, if_false] at h
          exact hRconv err h
    case or =>
      dsimp only at h
      cases rl with
      | failure err2 =>
        cases h
        have := ihl err rfl
        exact ⟨this.1, fun hD hdep => this.2 hD (by omega)⟩
      | success lv =>
        dsimp only at h
        cases htr : isTruthy lv with
        | true => simp [htr] at h
        | false =>
          simp only [htr, Bool.false_eq_true, if_false] at h
          exact hRconv err h
    all_goals (
      dsimp only at h
      cases rl with
      | failure err2 =>
        cases h
        have := ihl err rfl
        exact ⟨this.1, fun hD hdep => this.2 hD (by omega)⟩
      | success a =>
        dsimp only at h
        rcases hR : evalExpr ftab r c1 with ⟨rr, c2⟩
        rw [hR] at h hRconv; dsimp only at h hRconv
        cases rr with
        | failure err2 =>
          cases h
          exact hRconv err rfl
        | success b =>
          dsimp only at h
          first
            | (have hm := numBin_failure _ _ _ _ _ _ h
               constructor
               · intro hB hmsg; simp [hm, budgetMsg] at hmsg
               · intro hD hdep hmsg; simp [hm, depthMsg] at hmsg)
            | (have hm := numCmp_failure _ _ _ _ _ _ h
               constructor
               · intro hB hmsg; simp [hm, budgetMsg] at hmsg
               · intro hD hdep hmsg; simp [hm, depthMsg] at hmsg)
            | (rcases hstr : isStrRV a || isStrRV b with _ | _
               · simp only [hstr, Bool.false_eq_true, if_false] at h
                 have hm := numBin_failure _ _ _ _ _ _ h
                 constructor
                 · intro hB hmsg; simp [hm, budgetMsg] at hmsg
                 · intro hD hdep hmsg; simp [hm, depthMsg] at hmsg
               · simp only [hstr, if_true] at h
                 have hm := strConcat_failure _ _ _ _ _ h
                 constructor
                 · intro hB hmsg; simp [hm, budgetMsg] at hmsg
                 · intro hD hdep hmsg; simp [hm, depthMsg] at hmsg)
            | simp at h)
  | member objE prop sp =>
    intro err h
    rw [evalNode.eq_def] at h
    dsimp only at h
    simp only [height] at *
    have ihe := evalExpr_err ftab objE ctx
    rcases hl : evalExpr ftab objE ctx with ⟨r, c1⟩
    rw [hl] at h ihe; dsimp only at h ihe
    cases r with
    | failure err2 =>
      cases h
      have := ihe err rfl
      exact ⟨this.1, fun hD hdep => this.2 hD (by omega)⟩
    | success ov =>
      dsimp only at h
      cases hg : getMember ov prop with
      | error m =>
        rw [hg] at h; dsimp only at h; cases h
        have hm := getMember_error ov prop m hg
        constructor
        · intro hB hmsg; simp [hm, budgetMsg] at hmsg
        · intro hD hdep hmsg; simp [hm, depthMsg] at hmsg
      | ok w => rw [hg] at h; simp at h
  | call calleeE args sp =>
    cases calleeE
    case member objE prop spm =>
      intro err h
      rw [evalNode.eq_def] at h
      dsimp only at h
      simp only [height, heightList] at *
      have h1 : height objE ≤ max (1 + height objE) (heightList args) := by
        have := le_max_left (1 + height objE) (heightList args); omega
      have h2 : heightList args ≤ max (1 + height objE) (heightList args) :=
        le_max_right _ _
      have ihe := evalExpr_err ftab objE ctx
      rcases hl : evalExpr ftab objE ctx with ⟨r, c1⟩
      rw [hl] at h ihe; dsimp only at h ihe
      cases r with
      | failure err2 =>
        cases h
        have := ihe err rfl
        exact ⟨this.1, fun hD hdep => this.2 hD (by omega)⟩
      | success ov =>
        dsimp only at h
        have hc1 : sameBudgets ctx c1 := by
          have := (evalExpr_inv ftab objE ctx).1
          rw [hl] at this; exact this
        obtain ⟨_, hms, hmd, _, hdp⟩ := hc1
        cases hg : getMember ov prop with
        | error m =>
          rw [hg] at h; dsimp only at h; cases h
          have hm := getMember_error ov prop m hg
          constructor
          · intro hB hmsg; simp [hm, budgetMsg] at hmsg
          · intro hD hdep hmsg; simp [hm, depthMsg] at hmsg
        | ok fnv =>
          rw [hg] at h; dsimp only at h
          have := evalCall_err ftab fnv args sp c1 err h
          exact ⟨fun hB hm => by rw [← hms]; exact this.1 hB hm,
            fun hD hdep => this.2 hD (by omega)⟩
    all_goals (
      intro err h
      rw [evalNode.eq_def] at h
      dsimp only at h
      have hfc := evalFreeCall_err ftab _ args sp ctx err h
      simp only [height, heightList] at *
      exact ⟨hfc.1, fun hD hdep =>
        hfc.2 hD (depth_max_le hdep).1 (depth_max_le hdep).2⟩)
  | cond t cs alt sp =>
    intro err h
    rw [evalNode.eq_def] at h
    dsimp only at h
    simp only [height] at *
    have h1 : height t ≤ max (height t) (max (height cs) (height alt)) :=
      le_max_left _ _
    have h2 : height cs ≤ max (height t) (max (height cs) (height alt)) :=
      le_trans (le_max_left _ _) (le_max_right _ _)
    have h3 : height alt ≤ max (height t) (max (height cs) (height alt)) :=
      le_trans (le_max_right _ _) (le_max_right _ _)
    have ihe := evalExpr_err ftab t ctx
    rcases hl : evalExpr ftab t ctx with ⟨r, c1⟩
    rw [hl] at h ihe; dsimp only at h ihe
    cases r with
    | failure err2 =>
      cases h
      have := ihe err rfl
      exact ⟨this.1, fun hD hdep => this.2 hD (by omega)⟩
    | success tv =>
      dsimp only at h
      have hc1 : sameBudgets ctx c1 := by
        have := (evalExpr_inv ftab t ctx).1
        rw [hl] at this; exact this
      obtain ⟨_, hms, hmd, _, hdp⟩ := hc1
      cases htr : isTruthy tv with
      | true =>
        simp only [htr, if_true] at h
        have := evalExpr_err ftab cs c1 err h
        exact ⟨fun hB hm => by rw [← hms]; exact this.1 hB hm,
          fun hD hdep => this.2 hD (by omega)⟩
      | false =>
        simp only [htr, Bool.false_eq_true, if_false] at h
        have := evalExpr_err ftab alt c1 err h
        exact ⟨fun hB hm => by rw [← hms]; exact this.1 hB hm,
          fun hD hdep => this.2 hD (by omega)⟩
termination_by (sizeOf e, 0)

/-- Error provenance for the free-call path. -/
theorem evalFreeCall_err (ftab : FTab) (calleeE : Expr) (args : List Expr)
    (sp : Span) (ctx : Ctx) :
    ∀ err, (evalFreeCall ftab calleeE args sp ctx).1 = .failure err →
      (honestBudget ftab → err.message = budgetMsg →
        ∃ s, err.steps = some s ∧ ctx.maxSteps < s) ∧
      (honestDepth ftab → ctx.depth + height calleeE ≤ ctx.maxDepth →
        ctx.depth + heightList args ≤ ctx.maxDepth →
        err.message ≠ depthMsg) := by
  intro err h
  rw [evalFreeCall.eq_def] at h
  have ihe := evalExpr_err ftab calleeE ctx
  rcases hl : evalExpr ftab calleeE ctx with ⟨r, c1⟩
  rw [hl] at h ihe; dsimp only at h ihe
  cases r with
  | failure err2 =>
    cases h
    have := ihe err rfl
    exact ⟨this.1, fun hD hd1 _ => this.2 hD hd1⟩
  | success fnv =>
    dsimp only at h
    have hc1 : sameBudgets ctx c1 := by
      have := (evalExpr_inv ftab calleeE ctx).1
      rw [hl] at this; exact this
    obtain ⟨_, hms, hmd, _, hdp⟩ := hc1
    have := evalCall_err ftab fnv args sp c1 err h
    exact ⟨fun hB hm => by rw [← hms]; exact this.1 hB hm,
      fun hD _ hd2 => this.2 hD (by omega)⟩
termination_by (sizeOf calleeE + sizeOf args, 1)
decreasing_by
  all_goals first
    | decreasing_tactic
    | (cases args <;> decreasing_tactic)
    | (cases calleeE <;> decreasing_tactic)

/-- Error provenance for the call tail. -/
theorem evalCall_err (ftab : FTab) (fnv : RuntimeValue) (args : List Expr)
    (sp : Span) (ctx : Ctx) :
    ∀ err, (evalCall ftab fnv args sp ctx).1 = .failure err →
      (honestBudget ftab → err.message = budgetMsg →
        ∃ s, err.steps = some s ∧ ctx.maxSteps < s) ∧
      (honestDepth ftab → ctx.depth + heightList args ≤ ctx.maxDepth →
        err.message ≠ depthMsg) := by
  intro err h
  rw [evalCall.eq_def] at h
  cases fnv with
  | func fid =>
    dsimp only at h
    have ihe := evalList_err ftab args ctx
    rcases hl : evalList ftab args ctx with ⟨r, c2⟩
    rw [hl] at h ihe; dsimp only at h ihe
    cases r with
    | error err2 =>
      cases h
      exact ihe err rfl
    | ok argv =>
      dsimp only at h
      unfold invokeHost at h
      cases hf : ftab fid argv with
      | ret v => rw [hf] at h; simp at h
      | retBad =>
        rw [hf] at h; dsimp only at h; cases h
        constructor
        · intro hB hmsg; simp [budgetMsg] at hmsg
        · intro hD hdep hmsg; simp [depthMsg] at hmsg
      | throws m =>
        rw [hf] at h; dsimp only at h; cases h
        constructor
        · intro hB hmsg
          dsimp only at hmsg
          rw [hmsg] at hf
          exact absurd hf (hB fid argv)
        · intro hD hdep hmsg
          dsimp only at hmsg
          rw [hmsg] at hf
          exact absurd hf (hD fid argv)
  | undef => dsimp only at h; cases h; constructor
             · intro hB hmsg; simp [budgetMsg] at hmsg
             · intro hD hdep hmsg; simp [depthMsg] at hmsg
  | null => dsimp only at h; cases h; constructor
            · intro hB hmsg; simp [budgetMsg] at hmsg
            · intro hD hdep hmsg; simp [depthMsg] at hmsg
  | boolean b => dsimp only at h; cases h; constructor
                 · intro hB hmsg; simp [budgetMsg] at hmsg
                 · intro hD hdep hmsg; simp [depthMsg] at hmsg
  | num n => dsimp only at h; cases h; constructor
             · intro hB hmsg; simp [budgetMsg] at hmsg
             · intro hD hdep hmsg; simp [depthMsg] at hmsg
  | str s => dsimp only at h; cases h; constructor
             · intro hB hmsg; simp [budgetMsg] at hmsg
             · intro hD hdep hmsg; simp [depthMsg] at hmsg
  | arr id xs => dsimp only at h; cases h; constructor
                 · intro hB hmsg; simp [budgetMsg] at hmsg
                 · intro hD hdep hmsg; simp [depthMsg] at hmsg
  | obj id fs => dsimp only at h; cases h; constructor
                 · intro hB hmsg; simp [budgetMsg] at hmsg
                 · intro hD hdep hmsg; simp [depthMsg] at hmsg
termination_by (sizeOf args, 2)

/-- Error provenance for the entry protocol. -/
theorem evalExpr_err (ftab : FTab) (e : Expr) (ctx : Ctx) :
    ∀ err, (evalExpr ftab e ctx).1 = .failure err →
      (honestBudget ftab → err.message = budgetMsg →
        ∃ s, err.steps = some s ∧ ctx.maxSteps < s) ∧
      (honestDepth ftab → ctx.depth + height e ≤ ctx.maxDepth →
        err.message ≠ depthMsg) := by
  intro err h
  rw [evalExpr.eq_def] at h
  dsimp only at h
  split at h
  · next hover =>
    cases h
    constructor
    · intro hB hmsg
      refine ⟨ctx.steps + 1, rfl, ?_⟩
      simpa using hover
    · intro hD hdep hmsg; simp [budgetMsg, depthMsg] at hmsg
  · split at h
    · next hdeep =>
      cases h
      constructor
      · intro hB hmsg; simp [budgetMsg, depthMsg] at hmsg
      · intro hD hdep hmsg
        have hdd : ctx.maxDepth < ctx.depth := by simpa using hdeep
        omega
    · have ihn := evalNode_err ftab e
        { ctx with steps := ctx.steps + 1, depth := ctx.depth + 1 }
      rcases hn : evalNode ftab e
          { ctx with steps := ctx.steps + 1, depth := ctx.depth + 1 } with ⟨r, c⟩
      rw [hn] at h ihn; dsimp only at h ihn
      cases r with
      | success w => simp at h
      | failure err2 =>
        cases h
        have := ihn err rfl
        exact ⟨fun hB hm => by
            have hx := this.1 hB hm
            simpa using hx,
          fun hD hdep => this.2 hD (by
            show ctx.depth + 1 + height e ≤ ctx.maxDepth + 1
            omega)⟩
termination_by (sizeOf e, 1)

/-- Error provenance for the element/argument loop. -/
theorem evalList_err (ftab : FTab) (es : List Expr) (ctx : Ctx) :
    ∀ err, (evalList ftab es ctx).1 = .error err →
      (honestBudget ftab → err.message = budgetMsg →
        ∃ s, err.steps = some s ∧ ctx.maxSteps < s) ∧
      (honestDepth ftab → ctx.depth + heightList es ≤ ctx.maxDepth →
        err.message ≠ depthMsg) := by
  intro err h
  rw [evalList.eq_def] at h
  cases es with
  | nil => simp at h
  | cons e rest =>
    dsimp only at h
    simp only [heightList] at *
    have hhe : height e ≤ max (height e) (heightList rest) := le_max_left _ _
    have hhr : heightList rest ≤ max (height e) (heightList rest) :=
      le_max_right _ _
    have ihe := evalExpr_err ftab e ctx
    rcases hl : evalExpr ftab e ctx with ⟨r, c1⟩
    rw [hl] at h ihe; dsimp only at h ihe
    cases r with
    | failure err2 =>
      cases h
      have := ihe err rfl
      exact ⟨this.1, fun hD hdep => this.2 hD (by omega)⟩
    | success v =>
      dsimp only at h
      have hc1 : sameBudgets ctx c1 := by
        have := (evalExpr_inv ftab e ctx).1
        rw [hl] at this; exact this
      obtain ⟨_, hms, hmd, _, hdp⟩ := hc1
      have ihr := evalList_err ftab rest c1
      rcases h2 : evalList ftab rest c1 with ⟨r2, c2⟩
      rw [h2] at h ihr; dsimp only at h ihr
      cases r2 with
      | error err2 =>
        cases h
        have := ihr err rfl
        exact ⟨fun hB hm => by rw [← hms]; exact this.1 hB hm,
          fun hD hdep => this.2 hD (by omega)⟩
      | ok vs => simp at h
termination_by (sizeOf es, 0)

end

/-! Claim theorems. -/

/-- C1: for every pair of runtime values with a non-primitive (object, array
or function) on either side, `==` (`looseEqualSafe`) returns true exactly
under reference identity and false otherwise — no conversion-to-primitive is
performed (the definition returns before any coercion; being a pure function
over values, it invokes no host method, and in particular for non-primitive
`x` and primitive `p` both `x == p` and `p == x` are false) — and the
evaluator computes `!=` as the boolean negation of the same `looseEqualSafe`
that computes `==`. -/
theorem c1_loose_equality_non_coercion :
    (∀ a b : RuntimeValue, (isNonPrimSpec a || isNonPrimSpec b) = true →
        looseEqualSafe a b = sameRef a b) ∧
    (∀ x p : RuntimeValue, isNonPrimSpec x = true → isPrimSpec p = true →
        looseEqualSafe x p = false ∧ looseEqualSafe p x = false) ∧
    (∀ (ftab : FTab) (a b : RuntimeValue) (sp : Span),
        evaluateAst ftab (.binary .ne (.ident "x" sp) (.ident "y" sp) sp)
            [("x", a), ("y", b)] =
          .success (.boolean (!looseEqualSafe a b)) ∧
        evaluateAst ftab (.binary .eq (.ident "x" sp) (.ident "y" sp) sp)
            [("x", a), ("y", b)] =
          .success (.boolean (looseEqualSafe a b))) := by
  refine ⟨?_, ?_, ?_⟩
  · intro a b hnp
    cases a <;> cases b <;>
      simp_all [looseEqualSafe, isNonPrimSpec, sameRef, jsStrictEq, isPrimitive,
        isNullish, beq_eq_decide]
  · intro x p hx hp
    cases x <;> cases p <;>
      simp_all [looseEqualSafe, isNonPrimSpec, isPrimSpec, jsStrictEq,
        isPrimitive, isNullish]
  · intro ftab a b sp
    constructor <;>
      simp [evaluateAst, defaultCtx, evalExpr, evalNode, Expr.span]

/-- Witness for C1 at concrete inputs: two distinct arrays with identical
contents compare unequal (reference identity, not structural equality); an
object never equals a string; and `!=` on two such values evaluates to
true. -/
theorem c1_loose_equality_non_coercion_witness :
    looseEqualSafe (.arr 1 [.num (.rat 1)]) (.arr 2 [.num (.rat 1)]) =
        sameRef (.arr 1 [.num (.rat 1)]) (.arr 2 [.num (.rat 1)]) ∧
    (looseEqualSafe (.obj 3 [("a", .num (.rat 1))]) (.str "[object Object]") =
        false ∧
      looseEqualSafe (.str "[object Object]") (.obj 3 [("a", .num (.rat 1))]) =
        false) ∧
    evaluateAst (fun _ _ => .retBad)
        (.binary .ne (.ident "x" ⟨0, 6⟩) (.ident "y" ⟨0, 6⟩) ⟨0, 6⟩)
        [("x", .obj 7 []), ("y", .obj 8 [])] =
      .success (.boolean (!looseEqualSafe (.obj 7 []) (.obj 8 []))) := by
  have h := c1_loose_equality_non_coercion
  exact ⟨h.1 _ _ (by decide),
    h.2.1 (.obj 3 [("a", .num (.rat 1))]) (.str "[object Object]")
      (by decide) (by decide),
    (h.2.2 (fun _ _ => .retBad) (.obj 7 []) (.obj 8 []) ⟨0, 6⟩).1⟩

/-- C2: member access `obj.prop` — a forbidden name (`__proto__`,
`prototype`, `constructor`) makes `getMember` throw regardless of the shape
of the object; otherwise an array exposes only `length` (its element count)
and yields undefined for everything else; a plain object exposes only its
own members, a missing member yielding undefined; every other value
(primitives and functions) yields undefined; and the `member` node of the
evaluator dispatches through exactly this `getMember` on the evaluated
object. -/
theorem c2_member_access :
    (∀ (v : RuntimeValue) (prop : String), isForbiddenMember prop = true →
        getMember v prop = .error "forbidden member access") ∧
    (∀ (i : Nat) (xs : List RuntimeValue) (prop : String),
        isForbiddenMember prop = false →
        getMember (.arr i xs) prop =
          (if prop == "length" then .ok (.num (.rat (xs.length : ℕ)))
           else .ok .undef)) ∧
    (∀ (i : Nat) (fields : List (String × RuntimeValue)) (prop : String),
        isForbiddenMember prop = false →
        getMember (.obj i fields) prop =
          (match fields.find? (fun kv => kv.1 == prop) with
           | some kv => .ok kv.2
           | none => .ok .undef)) ∧
    (∀ (v : RuntimeValue) (prop : String),
        isForbiddenMember prop = false → isPrimitive v = true →
        getMember v prop = .ok .undef) ∧
    (∀ (ftab : FTab) (objE : Expr) (prop : String) (sp : Span) (ctx : Ctx)
        (v : RuntimeValue) (c1 : Ctx),
        ctx.steps + 1 ≤ ctx.maxSteps →
        ctx.depth ≤ ctx.maxDepth →
        evalExpr ftab objE
            { ctx with steps := ctx.steps + 1, depth := ctx.depth + 1 } =
          (.success v, c1) →
        evalExpr ftab (.member objE prop sp) ctx =
          ((match getMember v prop with
            | .error m => .failure ⟨m, some sp, some c1.steps⟩
            | .ok w => .success w), { c1 with depth := c1.depth - 1 })) := by
  refine ⟨?_, ?_, ?_, ?_, ?_⟩
  · intro v prop h
    simp [getMember, h]
  · intro i xs prop h
    simp [getMember, h]
  · intro i fields prop h
    simp [getMember, h]
  · intro v prop h hp
    cases v <;> simp_all [getMember, isPrimitive]
  · intro ftab objE prop sp ctx v c1 hs hd hobj
    rw [evalExpr.eq_def]
    dsimp only
    rw [if_neg (by simp; omega), if_neg (by simp; omega)]
    rw [evalNode.eq_def]
    dsimp only
    rw [hobj]
    dsimp only
    cases hg : getMember v prop <;> dsimp only

/-- Witness for C2 at concrete inputs: `__proto__` is rejected on an object,
`length` of a three-element array is 3, a missing own member of an object is
undefined, a member of a string is undefined, and the evaluator computes
`o.a` as 9 for `o = \x7b a: 9 \x7d` in the environment. -/
theorem c2_member_access_witness :
    getMember (.obj 1 [("x", .num (.rat 5))]) "__proto__" =
        .error "forbidden member access" ∧
    getMember (.arr 2 [.null, .undef, .boolean true]) "length" =
        .ok (.num (.rat 3)) ∧
    getMember (.obj 3 [("a", .str "v")]) "b" = .ok .undef ∧
    getMember (.str "hi") "size" = .ok .undef ∧
    evalExpr (fun _ _ => .retBad)
        (.member (.ident "o" ⟨0, 1⟩) "a" ⟨0, 3⟩)
        (defaultCtx [("o", .obj 4 [("a", .num (.rat 9))])]) =
      (.success (.num (.rat 9)),
        { defaultCtx [("o", .obj 4 [("a", .num (.rat 9))])] with
            steps := 2, depth := 0 }) := by
  have h := c2_member_access
  refine ⟨h.1 (.obj 1 [("x", .num (.rat 5))]) "__proto__" (by decide),
    ?_, h.2.2.1 3 [("a", .str "v")] "b" (by decide),
    h.2.2.2.1 (.str "hi") "size" (by decide) (by decide), ?_⟩
  · have := h.2.1 2 [.null, .undef, .boolean true] "length" (by decide)
    simpa using this
  · have hw := h.2.2.2.2 (fun _ _ => .retBad) (.ident "o" ⟨0, 1⟩) "a" ⟨0, 3⟩
      (defaultCtx [("o", .obj 4 [("a", .num (.rat 9))])])
      (.obj 4 [("a", .num (.rat 9))])
      { defaultCtx [("o", .obj 4 [("a", .num (.rat 9))])] with
          steps := 2, depth := 1 }
      (by decide) (by decide)
      (by simp [evalExpr, evalNode, defaultCtx, Expr.span])
    simpa [getMember, defaultCtx] using hw

/-- C3: contrary to the claim, the captured identifier case of `eval.ts`
(`Object.hasOwn(ctx.env, name) ? ctx.env[name] : undefined`) yields
`undefined` — a success, not an UnknownIdentifier error — for every
identifier that is not an own member of the environment, under the default
options of `evaluateAst`; the captured `EvalOptions` offers no
unknown-identifier policy to opt out of this behaviour. -/
theorem c3_unknown_identifier_yields_undefined :
    ∀ (ftab : FTab) (name : String) (sp : Span)
      (env : List (String × RuntimeValue)),
      env.find? (fun kv => kv.1 == name) = none →
      evaluateAst ftab (.ident name sp) env = .success .undef := by
  intro ftab name sp env h
  simp [evaluateAst, defaultCtx, evalExpr, evalNode, Expr.span, h]

/-- Witness for C3: the identifier `missing` is not an own member of the
environment `\x7b y: null \x7d`, and evaluating it with the default options
succeeds with `undefined`. -/
theorem c3_unknown_identifier_yields_undefined_witness :
    evaluateAst (fun _ _ => .retBad) (.ident "missing" ⟨0, 7⟩)
        [("y", .null)] =
      .success .undef :=
  c3_unknown_identifier_yields_undefined (fun _ _ => .retBad) "missing"
    ⟨0, 7⟩ [("y", .null)] (by rfl)

/-- C4: contrary to the claim, the environment validation that the captured
`evaluateAst` in `src/src/eval.ts` performs (its local `normalizeEnv`,
modelled by `evalTsNormalizeEnv`) reads every enumerable own property value
through `Object.entries` — invoking any getter, a host-observable side
effect — and then accepts an environment whose member is backed by an
accessor whenever the value the getter produces passes the value-based
`isRuntimeValue`; no EnvInvalid error is produced.  The descriptor-based
`normalizeEnv` of `src/src/runtime.ts` (`runtimeNormalizeEnvCheck`) does
implement the claimed behaviour — it rejects an enumerable accessor
property with the same error for every getter, without invoking it (the
verdict does not depend on the getter) — but the captured `evaluateAst`
does not use it. -/
theorem c4_env_accessor_validation :
    (∀ (k : String) (g : Getter) (rest : List (String × HostProp)),
        runtimeNormalizeEnvCheck ((k, .accessorProp g true) :: rest) =
          .error ("env[" ++ k ++ "] must be a data property")) ∧
    (∀ (k : String) (v : HostVal) (n : Nat),
        isRuntimeValueEvalTs v = .val true n →
        evalTsNormalizeEnv [(k, .accessorProp (.getterRet v) true)] =
          (.accepted, 1 + n)) := by
  constructor
  · intro k g rest
    simp [runtimeNormalizeEnvCheck]
  · intro k v n h
    simp [evalTsNormalizeEnv, entriesReadEnv, checkEnvPairs, h, addReads]

/-- Witness for C4: for the environment `\x7b x: accessor returning 42 \x7d`
the captured validator accepts it after one getter invocation, while the
`runtime.ts` validator rejects it. -/
theorem c4_env_accessor_validation_witness :
    runtimeNormalizeEnvCheck
        [("x", .accessorProp (.getterRet (.num (.rat 42))) true)] =
      .error "env[x] must be a data property" ∧
    evalTsNormalizeEnv
        [("x", .accessorProp (.getterRet (.num (.rat 42))) true)] =
      (.accepted, 1) := by
  have h := c4_env_accessor_validation
  exact ⟨h.1 "x" (.getterRet (.num (.rat 42))) [],
    h.2 "x" (.num (.rat 42)) 0 (by simp [isRuntimeValueEvalTs])⟩

/-- C5: the step counter is incremented exactly once on entry to every node
visit — every visit strictly increases the counter, a visit that begins past
the budget fails immediately with the counter advanced by exactly one and
carried in the error, and a leaf visit advances the counter by exactly one —
and for every AST and budget: success leaves the final count at most
`maxSteps`, while a budget-exceeded failure (with a host table that does not
forge the budget message) carries a step count strictly greater than
`maxSteps`. -/
theorem c5_step_budget :
    (∀ (ftab : FTab) (e : Expr) (ctx : Ctx),
        ctx.steps < (evalExpr ftab e ctx).2.steps) ∧
    (∀ (ftab : FTab) (e : Expr) (ctx : Ctx),
        ctx.maxSteps < ctx.steps + 1 →
        evalExpr ftab e ctx =
          (.failure ⟨budgetMsg, some e.span, some (ctx.steps + 1)⟩,
            { ctx with steps := ctx.steps + 1 })) ∧
    (∀ (ftab : FTab) (v : JsNum) (sp : Span) (ctx : Ctx),
        ctx.steps + 1 ≤ ctx.maxSteps → ctx.depth ≤ ctx.maxDepth →
        evalExpr ftab (.num v sp) ctx =
          (.success (.num v), { ctx with steps := ctx.steps + 1 })) ∧
    (∀ (ftab : FTab) (e : Expr) (ctx : Ctx) (v : RuntimeValue),
        (evalExpr ftab e ctx).1 = .success v →
        (evalExpr ftab e ctx).2.steps ≤ ctx.maxSteps) ∧
    (∀ (ftab : FTab) (e : Expr) (ctx : Ctx) (err : EvalErrorData),
        honestBudget ftab →
        (evalExpr ftab e ctx).1 = .failure err →
        err.message = budgetMsg →
        ∃ s, err.steps = some s ∧ ctx.maxSteps < s) := by
  refine ⟨?_, ?_, ?_, ?_, ?_⟩
  · intro ftab e ctx
    exact (evalExpr_inv ftab e ctx).2
  · intro ftab e ctx h
    rw [evalExpr.eq_def]
    dsimp only
    rw [if_pos (by simpa using h)]
    rfl
  · intro ftab v sp ctx hs hd
    rw [evalExpr.eq_def]
    dsimp only
    rw [if_neg (by simp; omega), if_neg (by simp; omega)]
    rw [evalNode.eq_def]
    dsimp only
    simp
  · intro ftab e ctx v h
    exact evalExpr_success ftab e ctx v h
  · intro ftab e ctx err hB h hm
    exact (evalExpr_err ftab e ctx err h).1 hB hm

/-- Witness for C5 at concrete inputs with the default budgets: a `null`
visit strictly advances the counter; with `maxSteps = 0` the same visit
fails immediately with count 1; a numeric leaf costs exactly one step; a
successful `true` visit ends within the budget; and the budget error of the
`maxSteps = 0` run carries a count strictly above the budget. -/
theorem c5_step_budget_witness :
    0 < (evalExpr (fun _ _ => .retBad) (.null ⟨0, 4⟩) (defaultCtx [])).2.steps ∧
    evalExpr (fun _ _ => .retBad) (.null ⟨0, 4⟩)
        { defaultCtx [] with maxSteps := 0 } =
      (.failure ⟨budgetMsg, some ⟨0, 4⟩, some 1⟩,
        { defaultCtx [] with maxSteps := 0, steps := 1 }) ∧
    evalExpr (fun _ _ => .retBad) (.num (.rat 5) ⟨0, 1⟩) (defaultCtx []) =
      (.success (.num (.rat 5)), { defaultCtx [] with steps := 1 }) ∧
    (evalExpr (fun _ _ => .retBad) (.boolean true ⟨0, 4⟩)
        (defaultCtx [])).2.steps ≤ (defaultCtx []).maxSteps ∧
    (∃ s, (some 1 : Option Nat) = some s ∧
      ({ defaultCtx [] with maxSteps := 0 } : Ctx).maxSteps < s) := by
  have h := c5_step_budget
  refine ⟨h.1 (fun _ _ => .retBad) (.null ⟨0, 4⟩) (defaultCtx []), ?_, ?_, ?_, ?_⟩
  · exact h.2.1 (fun _ _ => .retBad) (.null ⟨0, 4⟩)
      { defaultCtx [] with maxSteps := 0 } (by decide)
  · exact h.2.2.1 (fun _ _ => .retBad) (.rat 5) ⟨0, 1⟩ (defaultCtx [])
      (by decide) (by decide)
  · exact h.2.2.2.1 (fun _ _ => .retBad) (.boolean true ⟨0, 4⟩) (defaultCtx [])
      (.boolean true) (by simp [evalExpr, evalNode, defaultCtx, Expr.span])
  · exact h.2.2.2.2 (fun _ _ => .retBad) (.null ⟨0, 4⟩)
      { defaultCtx [] with maxSteps := 0 } ⟨budgetMsg, some ⟨0, 4⟩, some 1⟩
      (fun fid argv hx => FnOut.noConfusion hx)
      (by simp [evalExpr, evalNode, defaultCtx, Expr.span, budgetMsg])
      rfl

/-- C6: short-circuit — if the left operand of `&&` evaluates to a
non-truthy value, the whole expression evaluates to exactly that value with
the right operand never evaluated (the result is independent of `B`, which
is universally quantified, so evaluation succeeds even when evaluating `B`
alone would fail); symmetrically, `||` with a truthy left operand yields the
left value without touching `B`. -/
theorem c6_short_circuit :
    ∀ (ftab : FTab) (A B : Expr) (sp : Span) (ctx : Ctx)
      (lv : RuntimeValue) (c1 : Ctx),
      ctx.steps + 1 ≤ ctx.maxSteps →
      ctx.depth ≤ ctx.maxDepth →
      evalExpr ftab A
          { ctx with steps := ctx.steps + 1, depth := ctx.depth + 1 } =
        (.success lv, c1) →
      (isTruthy lv = false →
        evalExpr ftab (.binary .and A B sp) ctx =
          (.success lv, { c1 with depth := c1.depth - 1 })) ∧
      (isTruthy lv = true →
        evalExpr ftab (.binary .or A B sp) ctx =
          (.success lv, { c1 with depth := c1.depth - 1 })) := by
  intro ftab A B sp ctx lv c1 hs hd hA
  constructor
  · intro ht
    rw [evalExpr.eq_def]
    dsimp only
    rw [if_neg (by simp; omega), if_neg (by simp; omega)]
    rw [evalNode.eq_def]
    dsimp only
    rw [hA]
    dsimp only
    rw [ht]
    rfl
  · intro ht
    rw [evalExpr.eq_def]
    dsimp only
    rw [if_neg (by simp; omega), if_neg (by simp; omega)]
    rw [evalNode.eq_def]
    dsimp only
    rw [hA]
    dsimp only
    rw [ht]
    rfl

/-- Witness for C6: `false && (null())` succeeds with `false` and
`true || (null())` succeeds with `true`, although calling `null` alone
fails as a non-function call. -/
theorem c6_short_circuit_witness :
    evalExpr (fun _ _ => .retBad)
        (.binary .and (.boolean false ⟨0, 5⟩) (.call (.null ⟨9, 13⟩) [] ⟨9, 15⟩)
          ⟨0, 15⟩) (defaultCtx []) =
      (.success (.boolean false), { defaultCtx [] with steps := 2, depth := 0 }) ∧
    evalExpr (fun _ _ => .retBad)
        (.binary .or (.boolean true ⟨0, 4⟩) (.call (.null ⟨8, 12⟩) [] ⟨8, 14⟩)
          ⟨0, 14⟩) (defaultCtx []) =
      (.success (.boolean true), { defaultCtx [] with steps := 2, depth := 0 }) := by
  constructor
  · exact (c6_short_circuit (fun _ _ => .retBad) (.boolean false ⟨0, 5⟩)
      (.call (.null ⟨9, 13⟩) [] ⟨9, 15⟩) ⟨0, 15⟩ (defaultCtx [])
      (.boolean false) { defaultCtx [] with steps := 2, depth := 1 }
      (by decide) (by decide)
      (by simp [evalExpr, evalNode, defaultCtx, Expr.span])).1 (by decide)
  · exact (c6_short_circuit (fun _ _ => .retBad) (.boolean true ⟨0, 4⟩)
      (.call (.null ⟨8, 12⟩) [] ⟨8, 14⟩) ⟨0, 14⟩ (defaultCtx [])
      (.boolean true) { defaultCtx [] with steps := 2, depth := 1 }
      (by decide) (by decide)
      (by simp [evalExpr, evalNode, defaultCtx, Expr.span])).2 (by decide)

/-- C7: an array literal with more elements than `maxArrayElements` fails
with the array-too-large error immediately after the node's own entry bump —
the error and the final context are independent of the element expressions,
so no element is evaluated, charged or able to fail first; a literal within
the limit hands its elements to the left-to-right list evaluation
(`evalList`), whose error or value outcome the node propagates, and
`evalList` is genuinely left-to-right: a fully evaluated prefix runs first,
from the initial context, with the suffix continuing from the prefix's final
context. -/
theorem c7_array_literal :
    (∀ (ftab : FTab) (es : List Expr) (sp : Span) (ctx : Ctx),
        ctx.steps + 1 ≤ ctx.maxSteps → ctx.depth ≤ ctx.maxDepth →
        ctx.maxArrayElements < es.length →
        evalExpr ftab (.arr es sp) ctx =
          (.failure ⟨"array literal too large", some sp, some (ctx.steps + 1)⟩,
            { ctx with steps := ctx.steps + 1 })) ∧
    (∀ (ftab : FTab) (es : List Expr) (sp : Span) (ctx : Ctx)
        (err : EvalErrorData) (c1 : Ctx),
        ctx.steps + 1 ≤ ctx.maxSteps → ctx.depth ≤ ctx.maxDepth →
        es.length ≤ ctx.maxArrayElements →
        evalList ftab es
            { ctx with steps := ctx.steps + 1, depth := ctx.depth + 1 } =
          (.error err, c1) →
        evalExpr ftab (.arr es sp) ctx =
          (.failure err, { c1 with depth := c1.depth - 1 })) ∧
    (∀ (ftab : FTab) (es : List Expr) (sp : Span) (ctx : Ctx)
        (vs : List RuntimeValue) (c1 : Ctx),
        ctx.steps + 1 ≤ ctx.maxSteps → ctx.depth ≤ ctx.maxDepth →
        es.length ≤ ctx.maxArrayElements →
        evalList ftab es
            { ctx with steps := ctx.steps + 1, depth := ctx.depth + 1 } =
          (.ok vs, c1) →
        evalExpr ftab (.arr es sp) ctx =
          (.success (.arr c1.nextId vs),
            { c1 with nextId := c1.nextId + 1, depth := c1.depth - 1 })) ∧
    (∀ (ftab : FTab) (xs ys : List Expr) (ctx : Ctx)
        (vs : List RuntimeValue) (c1 : Ctx),
        evalList ftab xs ctx = (.ok vs, c1) →
        evalList ftab (xs ++ ys) ctx =
          (match evalList ftab ys c1 with
           | (.error err, c2) => (.error err, c2)
           | (.ok ws, c2) => (.ok (vs ++ ws), c2))) := by
  refine ⟨?_, ?_, ?_, ?_⟩
  · intro ftab es sp ctx hs hd hlen
    rw [evalExpr.eq_def]
    dsimp only
    rw [if_neg (by simp; omega), if_neg (by simp; omega)]
    rw [evalNode.eq_def]
    dsimp only
    rw [if_pos (by omega)]
    simp
  · intro ftab es sp ctx err c1 hs hd hlen hlist
    rw [evalExpr.eq_def]
    dsimp only
    rw [if_neg (by simp; omega), if_neg (by simp; omega)]
    rw [evalNode.eq_def]
    dsimp only
    rw [if_neg (by omega)]
    rw [hlist]
  · intro ftab es sp ctx vs c1 hs hd hlen hlist
    rw [evalExpr.eq_def]
    dsimp only
    rw [if_neg (by simp; omega), if_neg (by simp; omega)]
    rw [evalNode.eq_def]
    dsimp only
    rw [if_neg (by omega)]
    rw [hlist]
  · intro ftab xs ys
    induction xs with
    | nil =>
      intro ctx vs c1 h
      rw [evalList.eq_def] at h
      dsimp only at h
      cases h
      rcases hy : evalList ftab ys ctx with ⟨r, c2⟩
      rw [List.nil_append, hy]
      cases r <;> simp
    | cons e rest ih =>
      intro ctx vs c1 h
      rw [evalList.eq_def] at h
      dsimp only at h
      rw [List.cons_append, evalList.eq_def]
      dsimp only
      rcases he : evalExpr ftab e ctx with ⟨r, cA⟩
      rw [he] at h
      cases r with
      | failure err2 => cases h
      | success v =>
        dsimp only at h ⊢
        rcases hr : evalList ftab rest cA with ⟨r2, cB⟩
        rw [hr] at h
        cases r2 with
        | error err2 => cases h
        | ok ws =>
          dsimp only at h
          cases h
          rw [ih cA ws c1 hr]
          rcases hy : evalList ftab ys c1 with ⟨r3, c2⟩
          cases r3 <;> simp

/-- Witness for C7: `[1, 2]` with `maxArrayElements = 1` fails as too large
with only the node's own step charged; `[null()]` within the limit fails
with the element's own error; `[7]` evaluates to a one-element array; and
evaluating the concatenation `[1] ++ [2]` runs the prefix first and the
suffix from the prefix's final context. -/
theorem c7_array_literal_witness :
    evalExpr (fun _ _ => .retBad)
        (.arr [.num (.rat 1) ⟨1, 2⟩, .num (.rat 2) ⟨4, 5⟩] ⟨0, 6⟩)
        { defaultCtx [] with maxArrayElements := 1 } =
      (.failure ⟨"array literal too large", some ⟨0, 6⟩, some 1⟩,
        { defaultCtx [] with maxArrayElements := 1, steps := 1 }) ∧
    evalExpr (fun _ _ => .retBad)
        (.arr [.call (.null ⟨1, 5⟩) [] ⟨1, 7⟩] ⟨0, 8⟩) (defaultCtx []) =
      (.failure ⟨"attempted to call a non-function", some ⟨1, 7⟩, some 3⟩,
        { defaultCtx [] with steps := 3, depth := 0 }) ∧
    evalExpr (fun _ _ => .retBad) (.arr [.num (.rat 7) ⟨1, 2⟩] ⟨0, 3⟩)
        (defaultCtx []) =
      (.success (.arr 0 [.num (.rat 7)]),
        { defaultCtx [] with steps := 2, nextId := 1 }) ∧
    evalList (fun _ _ => .retBad)
        ([.num (.rat 1) ⟨1, 2⟩] ++ [.num (.rat 2) ⟨4, 5⟩]) (defaultCtx []) =
      (.ok [.num (.rat 1), .num (.rat 2)], { defaultCtx [] with steps := 2 }) := by
  have h := c7_array_literal
  refine ⟨?_, ?_, ?_, ?_⟩
  · exact h.1 (fun _ _ => .retBad)
      [.num (.rat 1) ⟨1, 2⟩, .num (.rat 2) ⟨4, 5⟩] ⟨0, 6⟩
      { defaultCtx [] with maxArrayElements := 1 }
      (by decide) (by decide) (by decide)
  · exact h.2.1 (fun _ _ => .retBad) [.call (.null ⟨1, 5⟩) [] ⟨1, 7⟩] ⟨0, 8⟩
      (defaultCtx [])
      ⟨"attempted to call a non-function", some ⟨1, 7⟩, some 3⟩
      { defaultCtx [] with steps := 3, depth := 1 }
      (by decide) (by decide) (by decide)
      (by simp [evalList, evalExpr, evalNode, evalFreeCall, evalCall,
        defaultCtx, Expr.span])
  · exact h.2.2.1 (fun _ _ => .retBad) [.num (.rat 7) ⟨1, 2⟩] ⟨0, 3⟩
      (defaultCtx []) [.num (.rat 7)]
      { defaultCtx [] with steps := 2, depth := 1 }
      (by decide) (by decide) (by decide)
      (by simp [evalList, evalExpr, evalNode, defaultCtx, Expr.span])
  · have hx := h.2.2.2 (fun _ _ => .retBad) [.num (.rat 1) ⟨1, 2⟩]
      [.num (.rat 2) ⟨4, 5⟩] (defaultCtx []) [.num (.rat 1)]
      { defaultCtx [] with steps := 1 }
      (by simp [evalList, evalExpr, evalNode, defaultCtx, Expr.span])
    rw [hx]
    simp [evalList, evalExpr, evalNode, defaultCtx, Expr.span]

/-- A committed (`cut`) failure of the element parser aborts the fuelled
`many` loop. -/
theorem manyAux_fatal (p : ParserC α) (s : PState) (e : String) (st : PState)
    (h : p s = .err e st true) :
    ∀ fuel, fuel ≠ 0 → manyAux p fuel s = .err e st true := by
  intro fuel hf
  cases fuel with
  | zero => exact absurd rfl hf
  | succ n => simp [manyAux, h]

/-- A committed failure of the element parser aborts `many`. -/
theorem manyP_fatal (p : ParserC α) (s : PState) (e : String) (st : PState)
    (h : p s = .err e st true) : manyP p s = .err e st true := by
  unfold manyP
  exact manyAux_fatal p s e st h (s.rest.length + 1) (by omega)

/-- C8: in the string-literal grammar, an escape `\D` with `D` a decimal
digit `1`–`9` is a committed parse error ("strict mode: digit escapes are
not allowed"), a `\0` followed by a decimal digit is a committed parse error
("strict mode: legacy octal escape"), and a `\0` not followed by a decimal
digit is accepted and decodes to the single NUL character — shown both at
the escape-sequence level (for every continuation of the input) and at the
whole string-literal level, where the committed digit-escape error
propagates through `many` and the literal `"\0"` parses to NUL. -/
theorem c8_string_escapes :
    (∀ (d : Char), d ∈ ['1','2','3','4','5','6','7','8','9'] →
      ∀ (rest : List Char) (i : Nat),
        escapeSequence ⟨d :: rest, i⟩ =
          .err "strict mode: digit escapes are not allowed" ⟨rest, i + 1⟩ true) ∧
    (∀ (d : Char), d.isDigit = true →
      ∀ (rest : List Char) (i : Nat),
        escapeSequence ⟨'0' :: d :: rest, i⟩ =
          .err "strict mode: legacy octal escape" ⟨d :: rest, i + 1⟩ true) ∧
    (∀ (rest : List Char) (i : Nat),
        (∀ c, rest.head? = some c → c.isDigit = false) →
        escapeSequence ⟨'0' :: rest, i⟩ = .ok "\x00" ⟨rest, i + 1⟩) ∧
    (∀ (d : Char), d ∈ ['1','2','3','4','5','6','7','8','9'] →
      ∀ (rest : List Char) (i : Nat),
        stringLiteralP ⟨'"' :: '\\' :: d :: rest, i⟩ =
          .err "strict mode: digit escapes are not allowed" ⟨rest, i + 3⟩ true) ∧
    stringLiteralP ⟨['"', '\\', '0', '"'], 0⟩ = .ok "\x00" ⟨[], 4⟩ := by
  have h1 : ∀ (d : Char), d ∈ ['1','2','3','4','5','6','7','8','9'] →
      ∀ (rest : List Char) (i : Nat),
        escapeSequence ⟨d :: rest, i⟩ =
          .err "strict mode: digit escapes are not allowed" ⟨rest, i + 1⟩ true := by
    intro d hd rest i
    fin_cases hd <;>
      simp +decide [escapeSequence, orP, lineContinuationTail, singleEscapeChar,
        zeroEscape, hexEscape, unicodeEscape, strictDigitEscapeError,
        strictInvalidDigitEscape, identityEscapeChar, mapP, seqP, strP, cutP,
        cutKeep, notP, optionalP, charP, digitP, decimalDigitChar, pFail,
        List.isPrefixOf]
  refine ⟨h1, ?_, ?_, ?_, ?_⟩
  · intro d hd rest i
    simp +decide [escapeSequence, orP, lineContinuationTail, singleEscapeChar,
      zeroEscape, mapP, seqP, strP, cutP, notP, decimalDigitChar, digitP,
      optionalP, List.isPrefixOf, hd]
  · intro rest i h
    cases rest with
    | nil =>
      simp +decide [escapeSequence, orP, lineContinuationTail, singleEscapeChar,
        zeroEscape, mapP, seqP, strP, cutP, notP, decimalDigitChar, digitP,
        optionalP, List.isPrefixOf]
    | cons c cs =>
      have hc := h c rfl
      simp +decide [escapeSequence, orP, lineContinuationTail, singleEscapeChar,
        zeroEscape, mapP, seqP, strP, cutP, notP, decimalDigitChar, digitP,
        optionalP, List.isPrefixOf, hc]
  · intro d hd rest i
    have he : escapeP ⟨'\\' :: d :: rest, i + 1⟩ =
        .err "strict mode: digit escapes are not allowed" ⟨rest, i + 3⟩ true := by
      simp +decide [escapeP, mapP, seqP, strP, List.isPrefixOf,
        h1 d hd rest (i + 2)]
    have ho : orP escapeP (normalCharP '"') ⟨'\\' :: d :: rest, i + 1⟩ =
        .err "strict mode: digit escapes are not allowed" ⟨rest, i + 3⟩ true := by
      simp [orP, he]
    have hm := manyP_fatal _ _ _ _ ho
    simp +decide [stringLiteralP, makeStringLiteral, orP, mapP, seqP, strP,
      List.isPrefixOf, hm]
  · decide

/-- Witness for C8 at concrete inputs: `\7` is a committed digit-escape
error, `\01` is a committed legacy-octal error, a bare `\0` decodes to NUL,
and the four-character literal `"\8x` fails committed inside the string
grammar. -/
theorem c8_string_escapes_witness :
    escapeSequence ⟨['7'], 0⟩ =
      .err "strict mode: digit escapes are not allowed" ⟨[], 1⟩ true ∧
    escapeSequence ⟨['0', '1'], 0⟩ =
      .err "strict mode: legacy octal escape" ⟨['1'], 1⟩ true ∧
    escapeSequence ⟨['0'], 0⟩ = .ok "\x00" ⟨[], 1⟩ ∧
    stringLiteralP ⟨['"', '\\', '8', 'x'], 0⟩ =
      .err "strict mode: digit escapes are not allowed" ⟨['x'], 3⟩ true := by
  have h := c8_string_escapes
  exact ⟨h.1 '7' (by decide) [] 0,
    h.2.1 '1' (by decide) [] 0,
    h.2.2.1 [] 0 (by intro c hc; simp at hc),
    h.2.2.2.1 '8' (by decide) ['x'] 0⟩

/-- C9: pipeline desugaring — `a |> f` with a non-call right operand
produces a single call node with callee `f` and argument list `[a]`;
`a |> f(x, y)` (a call right operand) injects `a` as the first argument,
keeping the callee and the remaining arguments; and the chain reduction is
the left fold of `mkPipedCall`, so `a |> f |> g` nests the earlier pipe as
the first argument of the later call: `g(f(a))`. -/
theorem c9_pipeline_desugaring :
    (∀ (a f : Expr) (start : Nat), f.isCall = false →
        mkPipedCall start f a = .call f [a] ⟨start, f.span.stop⟩) ∧
    (∀ (a callee : Expr) (args : List Expr) (rsp : Span) (start : Nat),
        mkPipedCall start (.call callee args rsp) a =
          .call callee (a :: args) ⟨start, rsp.stop⟩) ∧
    (∀ (first r1 : Expr) (restR : List Expr),
        pipelineDesugar first (r1 :: restR) =
          pipelineDesugar (mkPipedCall first.span.start r1 first) restR) ∧
    (∀ (a f g : Expr), f.isCall = false → g.isCall = false →
        pipelineDesugar a [f, g] =
          .call g [.call f [a] ⟨a.span.start, f.span.stop⟩]
            ⟨a.span.start, g.span.stop⟩) := by
  have h1 : ∀ (a f : Expr) (start : Nat), f.isCall = false →
      mkPipedCall start f a = .call f [a] ⟨start, f.span.stop⟩ := by
    intro a f start hf
    cases f <;> simp_all [mkPipedCall, Expr.isCall, Expr.span]
  refine ⟨h1, ?_, ?_, ?_⟩
  · intro a callee args rsp start
    simp [mkPipedCall]
  · intro first r1 restR
    simp [pipelineDesugar, List.foldl]
  · intro a f g hf hg
    have e1 := h1 a f a.span.start hf
    have e2 := h1 (.call f [a] ⟨a.span.start, f.span.stop⟩) g a.span.start hg
    simp only [pipelineDesugar, List.foldl]
    rw [e1]
    exact e2

/-- Witness for C9 on the shapes `a |> f`, `a |> f(x, y)` and
`a |> f |> g`. -/
theorem c9_pipeline_desugaring_witness :
    mkPipedCall 0 (.ident "f" ⟨5, 6⟩) (.ident "a" ⟨0, 1⟩) =
      .call (.ident "f" ⟨5, 6⟩) [.ident "a" ⟨0, 1⟩] ⟨0, 6⟩ ∧
    mkPipedCall 0
        (.call (.ident "f" ⟨5, 6⟩) [.ident "x" ⟨7, 8⟩, .ident "y" ⟨10, 11⟩]
          ⟨5, 12⟩) (.ident "a" ⟨0, 1⟩) =
      .call (.ident "f" ⟨5, 6⟩)
        [.ident "a" ⟨0, 1⟩, .ident "x" ⟨7, 8⟩, .ident "y" ⟨10, 11⟩] ⟨0, 12⟩ ∧
    pipelineDesugar (.ident "a" ⟨0, 1⟩) [.ident "f" ⟨5, 6⟩, .ident "g" ⟨10, 11⟩] =
      .call (.ident "g" ⟨10, 11⟩)
        [.call (.ident "f" ⟨5, 6⟩) [.ident "a" ⟨0, 1⟩] ⟨0, 6⟩] ⟨0, 11⟩ := by
  have h := c9_pipeline_desugaring
  exact ⟨h.1 (.ident "a" ⟨0, 1⟩) (.ident "f" ⟨5, 6⟩) 0 rfl,
    h.2.1 (.ident "a" ⟨0, 1⟩) (.ident "f" ⟨5, 6⟩)
      [.ident "x" ⟨7, 8⟩, .ident "y" ⟨10, 11⟩] ⟨5, 12⟩ 0,
    h.2.2.2 (.ident "a" ⟨0, 1⟩) (.ident "f" ⟨5, 6⟩) (.ident "g" ⟨10, 11⟩)
      rfl rfl⟩

/-- C10: the recursion-depth counter is restored to its entry value after
every node visit, whatever the outcome (the `finally` block of the source);
hence a failure of a node whose syntactic height fits inside the remaining
depth allowance can never be the recursion-limit error — in particular from
the root, which `evaluateAst` visits at depth 0 with the default limit —
and with `maxDepth = 0` a single-node expression still evaluates
successfully (the host table must not forge the recursion-limit message for
the error-provenance parts). -/
theorem c10_depth_restore :
    (∀ (ftab : FTab) (e : Expr) (ctx : Ctx),
        (evalExpr ftab e ctx).2.depth = ctx.depth) ∧
    (∀ (ftab : FTab) (e : Expr) (ctx : Ctx) (err : EvalErrorData),
        honestDepth ftab →
        (evalExpr ftab e ctx).1 = .failure err →
        ctx.depth + height e ≤ ctx.maxDepth →
        err.message ≠ depthMsg) ∧
    (∀ (ftab : FTab) (e : Expr) (env : List (String × RuntimeValue))
        (err : EvalErrorData),
        honestDepth ftab →
        evaluateAst ftab e env = .failure err →
        height e ≤ 256 →
        err.message ≠ depthMsg) ∧
    (∀ (ftab : FTab) (v : JsNum) (sp : Span)
        (env : List (String × RuntimeValue)),
        evalExpr ftab (.num v sp) { defaultCtx env with maxDepth := 0 } =
          (.success (.num v),
            { defaultCtx env with maxDepth := 0, steps := 1 })) := by
  refine ⟨?_, ?_, ?_, ?_⟩
  · intro ftab e ctx
    exact (evalExpr_inv ftab e ctx).1.2.2.2.2
  · intro ftab e ctx err hD hfail hle
    exact (evalExpr_err ftab e ctx err hfail).2 hD hle
  · intro ftab e env err hD hfail hle
    refine (evalExpr_err ftab e (defaultCtx env) err ?_).2 hD ?_
    · simpa [evaluateAst] using hfail
    · simpa [defaultCtx] using hle
  · intro ftab v sp env
    rw [evalExpr.eq_def]
    dsimp only
    rw [if_neg (by simp [defaultCtx]), if_neg (by simp [defaultCtx])]
    rw [evalNode.eq_def]
    dsimp only
    simp [defaultCtx]

/-- Witness for C10: a `null` visit leaves the depth at 0; the failure of
the shallow call `null()` (height 1, well inside the default limit) is not
the recursion-limit error, both for a direct visit and through
`evaluateAst`; and a numeric literal evaluates successfully with
`maxDepth = 0`. -/
theorem c10_depth_restore_witness :
    (evalExpr (fun _ _ => .retBad) (.null ⟨0, 4⟩) (defaultCtx [])).2.depth = 0 ∧
    ("attempted to call a non-function" : String) ≠ depthMsg ∧
    evalExpr (fun _ _ => .retBad) (.num (.rat 3) ⟨0, 1⟩)
        { defaultCtx [] with maxDepth := 0 } =
      (.success (.num (.rat 3)),
        { defaultCtx [] with maxDepth := 0, steps := 1 }) := by
  have h := c10_depth_restore
  refine ⟨h.1 (fun _ _ => .retBad) (.null ⟨0, 4⟩) (defaultCtx []), ?_, ?_⟩
  · have h2 := h.2.1 (fun _ _ => .retBad) (.call (.null ⟨0, 4⟩) [] ⟨0, 6⟩)
      (defaultCtx [])
      ⟨"attempted to call a non-function", some ⟨0, 6⟩, some 2⟩
      (fun fid argv hx => FnOut.noConfusion hx)
      (by simp [evalExpr, evalNode, evalFreeCall, evalCall, defaultCtx,
        Expr.span])
      (by simp [height, heightList, defaultCtx])
    have h3 := h.2.2.1 (fun _ _ => .retBad) (.call (.null ⟨0, 4⟩) [] ⟨0, 6⟩) []
      ⟨"attempted to call a non-function", some ⟨0, 6⟩, some 2⟩
      (fun fid argv hx => FnOut.noConfusion hx)
      (by simp [evaluateAst, evalExpr, evalNode, evalFreeCall, evalCall,
        defaultCtx, Expr.span])
      (by simp [height, heightList])
    exact h3
  · exact h.2.2.2 (fun _ _ => .retBad) (.rat 3) ⟨0, 1⟩ []

end Exp
